import Mathlib

/-!
Verification development for the InvokeAI weighted-prompt compiler
(`ldm/invoke/prompt_parser.py`).

The Python source is shallowly embedded here:
* the dynamically-typed AST node classes become one inductive `Node`
  (plain Python lists and pyparsing `ParseResults` are separate
  constructors because the flattening engine dispatches on them);
* Python `float` weights are modelled as exact rationals `ℚ`;
* code that can raise becomes `Except PyErr`;
* the pyparsing grammar built in `build_parser_logic` is embedded as an
  executable recursive-descent interpreter over `List Char`, reproducing
  pyparsing 3.0.9 semantics for the combinators actually used
  (leading-whitespace skipping over ' ', '\t', '\n', '\r';
  `CharsNotIn`/`Combine` interiors do not skip; `MatchFirst` is ordered
  choice; `Or` is longest match with ties going to the first listed;
  `parse_string` is run without `parse_all`, and `prompt` carries its own
  `StringEnd`).
Recursion through the nested `Node`/`Tok` types and through the grammar
is made kernel-computable by structural recursion on an explicit fuel
counter; `parse` instantiates ample fuel derived from the input length.
-/

set_option maxRecDepth 4000

namespace InvokeAI

/-! ### Characters, whitespace, small scanners -/

/-- pyparsing 3.0.9 `DEFAULT_WHITE_CHARS = " \n\t\r"`: the characters the
combinators skip before matching. -/
def isSkipWS (c : Char) : Bool :=
  c = ' ' || c = '\t' || c = '\n' || c = '\r'

/-- Python `string.whitespace` (also what `str.strip()` removes for ASCII
input). -/
def isPyWS (c : Char) : Bool :=
  isSkipWS c || c = '\x0b' || c = '\x0c'

/-- Membership in `pyparsing.printables`: ASCII 33..126. -/
def isPrintableAscii (c : Char) : Bool :=
  33 ≤ c.toNat && c.toNat ≤ 126

/-- Characters accepted by the `Word` inside `unquoted_fragment`:
printables minus whitespace, backslash and double quote. -/
def uqChar (c : Char) : Bool :=
  isPrintableAscii c && c ≠ '\\' && c ≠ '"'

/-- Characters accepted by the `Word` inside the unquoted branch of
`parenthesized_fragment`: printables minus whitespace, backslash and ')'. -/
def parenChar (c : Char) : Bool :=
  isPrintableAscii c && c ≠ '\\' && c ≠ ')'

/-- `CharsNotIn(string.whitespace + '()')`, used by
`fragment_inside_attention` and `attention_without_parens`. -/
def fiaChar (c : Char) : Bool :=
  !(isPyWS c) && c ≠ '(' && c ≠ ')'

def isDigitChar (c : Char) : Bool :=
  '0' ≤ c && c ≤ '9'

def isHexChar (c : Char) : Bool :=
  isDigitChar c || ('a' ≤ c && c ≤ 'f') || ('A' ≤ c && c ≤ 'F')

/-- Leading-whitespace skip performed by pyparsing before matching. -/
def skipWS : List Char → List Char
  | [] => []
  | c :: cs => if isSkipWS c then skipWS cs else c :: cs

/-- Greedy span: longest run of characters satisfying `p`, plus the rest. -/
def spanP (p : Char → Bool) : List Char → List Char × List Char
  | [] => ([], [])
  | c :: cs =>
    if p c then
      let r := spanP p cs
      (c :: r.1, r.2)
    else ([], c :: cs)

/-- Python `str.strip()` restricted to ASCII input. -/
def pyStrip (s : String) : String :=
  (((s.data.dropWhile fun c => isPyWS c).reverse.dropWhile fun c => isPyWS c).reverse).asString

def digitsToNat : List Char → Nat
  | [] => 0
  | c :: cs => digitsToNat cs + c.toNat % 48 * 10 ^ cs.length

/-! Python `float` arithmetic is modelled exactly on `ℚ`.  The standard
`Rat.mul`/`Rat.add` are `@[irreducible]`, which would block kernel
evaluation of concrete parses, so the model multiplies through `mkRat`
(the same normalised result). -/

/-- Exact product of two rationals (same value as `Rat.mul`). -/
def qmul (a b : ℚ) : ℚ := mkRat (a.num * b.num) (a.den * b.den)

/-- Exact sum of two rationals (same value as `Rat.add`). -/
def qadd (a b : ℚ) : ℚ := mkRat (a.num * b.den + b.num * a.den) (a.den * b.den)

/-- `pow(base, k)` on exact rationals. -/
def qpow (b : ℚ) : Nat → ℚ
  | 0 => mkRat 1 1
  | k + 1 => qmul (qpow b k) b

/-! ### Errors

Python exceptions that can surface from the embedded code.
`parsingException` is `PromptParser.ParsingException`; `parseException`
is a raw `pyparsing.ParseException` escaping `parse_string`; the rest are
builtin exception kinds reachable through the dynamic attribute/type
checks.  `fuel` marks exhaustion of the artificial recursion fuel and is
unreachable for the fuel values actually instantiated. -/
inductive PyErr where
  | parsingException
  | parseException
  | attributeError
  | typeError
  | indexError
  | fuel
  deriving Repr, DecidableEq

/-! ### AST nodes -/

/-- The dynamic value universe the prompt compiler manipulates: the AST
classes of `prompt_parser.py` plus plain Python lists, pyparsing
`ParseResults`, strings and floats, which all flow through the same
dynamically-typed code. -/
inductive Node where
  | fragment (text : String) (weight : ℚ)
  | attention (weight : ℚ) (children : List Node)
  | cacs (original : Node) (edited : Node)
  | cacAppend (frag : Node)
  | prompt (children : List Node)
  | flattened (children : List Node)
  | blend (prompts : List Node) (weights : List ℚ) (normalizeWeights : Bool)
  | conjunction (prompts : List Node) (weights : List ℚ)
  | parseResults (items : List Node)
  | pylist (items : List Node)
  | pystr (s : String)
  | pynum (q : ℚ)

open Node

/-- `issubclass(type(x), BaseFragment)`: `Fragment`,
`CrossAttentionControlSubstitute`, `CrossAttentionControlAppend`. -/
def isBaseFragment : Node → Bool
  | fragment _ _ => true
  | cacs _ _ => true
  | cacAppend _ => true
  | _ => false

/-- `issubclass(type(x), CrossAttentionControlledFragment)`. -/
def isCACF : Node → Bool
  | cacs _ _ => true
  | cacAppend _ => true
  | _ => false

def isPromptNode : Node → Bool
  | prompt _ => true
  | _ => false

def isFlattenedNode : Node → Bool
  | flattened _ => true
  | _ => false

def isBlendNode : Node → Bool
  | blend _ _ _ => true
  | _ => false

/-! ### Validating constructors -/

/-- `Prompt.__init__`: every part must be an `Attention` or a
`BaseFragment` subclass, otherwise `ParsingException`. -/
def mkPrompt (parts : List Node) : Except PyErr Node :=
  if parts.all fun c => (match c with | attention _ _ => true | _ => false) || isBaseFragment c then
    .ok (prompt parts)
  else .error .parsingException

/-- Input to `FlattenedPrompt.__init__`: a `BaseFragment` or a
`(str, float)` tuple. -/
inductive FPart where
  | node (n : Node)
  | tup (s : String) (w : ℚ)

/-- Conversion loop of `FlattenedPrompt.__init__`. -/
def convertFParts : List FPart → Except PyErr (List Node)
  | [] => .ok []
  | p :: ps => do
    let n ← match p with
      | .node n => if isBaseFragment n then .ok n else .error PyErr.parsingException
      | .tup s w => .ok (fragment s w)
    let ns ← convertFParts ps
    .ok (n :: ns)

/-- `FlattenedPrompt.__init__`: keeps `BaseFragment`s, upgrades
`(str, float)` tuples to `Fragment`s, raises on anything else. -/
def mkFlattenedPrompt (parts : List FPart) : Except PyErr Node := do
  let converted ← convertFParts parts
  .ok (flattened converted)

/-- `Blend.__init__`: counts must match and every prompt must be a
`Prompt` or `FlattenedPrompt`.  (The "upcast" list comprehension in the
source is dead code: `self.prompts` is immediately overwritten with the
unmodified `prompts` argument.) -/
def mkBlend (prompts : List Node) (weights : List ℚ) (normalizeWeights : Bool) :
    Except PyErr Node :=
  if prompts.length ≠ weights.length then .error .parsingException
  else if prompts.all fun c => isPromptNode c || isFlattenedNode c then
    .ok (blend prompts weights normalizeWeights)
  else .error .parsingException

/-- `Prompt(x)` applied to a single coerced entry inside
`Conjunction.__init__`: the entry is iterated as the parts list, so
non-iterable nodes raise `TypeError`. -/
def coercePromptEntry (x : Node) : Except PyErr Node :=
  match x with
  | prompt _ => .ok x
  | blend _ _ _ => .ok x
  | flattened _ => .ok x
  | parseResults l => mkPrompt l
  | pylist l => mkPrompt l
  | _ => .error .typeError

/-- The coercing list comprehension of `Conjunction.__init__`. -/
def coerceAll : List Node → Except PyErr (List Node)
  | [] => .ok []
  | x :: xs => do
    let y ← coercePromptEntry x
    let ys ← coerceAll xs
    .ok (y :: ys)

/-- `Conjunction.__init__`: coerces entries, defaults omitted weights to
`1.0` per prompt, and validates the counts when weights are supplied. -/
def mkConjunction (prompts : List Node) (weights : Option (List ℚ)) :
    Except PyErr Node := do
  let coerced ← coerceAll prompts
  let ws := match weights with
    | none => List.replicate coerced.length (mkRat 1 1)
    | some w => w
  if ws.length ≠ coerced.length then .error .parsingException
  else .ok (conjunction coerced ws)

/-! ### Structural equality as implemented by the `__eq__` methods (C10)

`Attention.__eq__` compares `other.fragment == self.fragment`, but no
`Attention` instance ever has a `fragment` attribute (`__init__` sets only
`weight` and `children`), so once the weights agree the comparison raises
`AttributeError`.  `Blend.__eq__` compares `repr` strings, which do not
mention `normalize_weights`.  Python's short-circuit `and` and the
length-first list comparison are reproduced. -/

/-- Python `float` repr for the rationals we manipulate; exact values are
printed as decimals when the denominator is a power of ten times a unit,
otherwise as a fraction (only injectivity on equal inputs matters for the
claims below). -/
def ratRepr (q : ℚ) : String :=
  if q.den = 1 then toString q.num ++ ".0"
  else toString q.num ++ "/" ++ toString q.den

/-- `repr` / f-string rendering of a node, fuelled for the nested
recursion.  `CrossAttentionControlAppend.__repr__` returns a tuple, which
is a `TypeError` when rendered inside a container. -/
def pyRepr : Nat → Node → Except PyErr String
  | 0, _ => .error .fuel
  | n + 1, node => match node with
    | fragment t w => .ok ("Fragment:'" ++ t ++ "'@" ++ ratRepr w)
    | attention w cs => do
      let rs ← cs.mapM (pyRepr n)
      .ok ("Attention:'[" ++ String.intercalate ", " rs ++ "]' @ " ++ ratRepr w)
    | cacs o e => do
      let ro ← pyRepr n o
      let re ← pyRepr n e
      .ok ("CrossAttentionControlSubstitute:(" ++ ro ++ "->" ++ re ++ ")")
    | cacAppend _ => .error .typeError
    | prompt cs => do
      let rs ← cs.mapM (pyRepr n)
      .ok ("Prompt:[" ++ String.intercalate ", " rs ++ "]")
    | flattened cs => do
      let rs ← cs.mapM (pyRepr n)
      .ok ("FlattenedPrompt:[" ++ String.intercalate ", " rs ++ "]")
    | blend ps ws _ => do
      let rs ← ps.mapM (pyRepr n)
      .ok ("Blend:[" ++ String.intercalate ", " rs ++ "] | weights [" ++
        String.intercalate ", " (ws.map ratRepr) ++ "]")
    | conjunction ps ws => do
      let rs ← ps.mapM (pyRepr n)
      .ok ("Conjunction:[" ++ String.intercalate ", " rs ++ "] | weights [" ++
        String.intercalate ", " (ws.map ratRepr) ++ "]")
    | parseResults l => do
      let rs ← l.mapM (pyRepr n)
      .ok ("ParseResults([" ++ String.intercalate ", " rs ++ "])")
    | pylist l => do
      let rs ← l.mapM (pyRepr n)
      .ok ("[" ++ String.intercalate ", " rs ++ "]")
    | pystr s => .ok ("'" ++ s ++ "'")
    | pynum q => .ok (ratRepr q)

/-- `a == b` as evaluated by Python on these classes (`a.__eq__(b)`).
Lists and `ParseResults` compare length-first, then element-wise with
short-circuiting; distinct `ParseResults` objects fall back to identity
comparison and are therefore unequal as values. -/
def pyEq : Nat → Node → Node → Except PyErr Bool
  | 0, _, _ => .error .fuel
  | n + 1, a, b => match a with
    | fragment t w =>
      match b with
      | fragment t' w' => .ok (decide (t' = t) && decide (w' = w))
      | _ => .ok false
    | attention w _ =>
      -- `type(other) is Attention and other.weight == self.weight and
      --  other.fragment == self.fragment`; the last conjunct raises.
      match b with
      | attention w' _ => if w' = w then .error .attributeError else .ok false
      | _ => .ok false
    | cacs o e =>
      match b with
      | cacs o' e' => do
        let r ← pyEq n o' o
        if r then pyEq n e' e else .ok false
      | _ => .ok false
    | cacAppend f =>
      match b with
      | cacAppend f' => pyEq n f' f
      | _ => .ok false
    | prompt cs =>
      match b with
      | prompt cs' =>
        if cs'.length = cs.length then
          (cs'.zip cs).allM fun p => pyEq n p.1 p.2
        else .ok false
      | _ => .ok false
    | flattened cs =>
      match b with
      | flattened cs' =>
        if cs'.length = cs.length then
          (cs'.zip cs).allM fun p => pyEq n p.1 p.2
        else .ok false
      | _ => .ok false
    | blend _ _ _ => do
      -- `Blend.__eq__` compares `other.__repr__() == self.__repr__()`.
      let ra ← pyRepr (n + 1) a
      match b with
      | cacAppend _ => .ok false  -- other.__repr__() is a tuple, ≠ any str
      | _ => do
        let rb ← pyRepr (n + 1) b
        .ok (decide (rb = ra))
    | conjunction ps ws =>
      match b with
      | conjunction ps' ws' =>
        if ps'.length = ps.length then do
          let r ← (ps'.zip ps).allM fun p => pyEq n p.1 p.2
          if r then .ok (decide (ws' = ws)) else .ok false
        else .ok false
      | _ => .ok false
    | parseResults _ =>
      match b with
      | parseResults _ => .ok false  -- identity comparison of distinct objects
      | _ => .ok false
    | pylist l =>
      match b with
      | pylist l' =>
        if l'.length = l.length then
          (l.zip l').allM fun p => pyEq n p.1 p.2
        else .ok false
      | _ => .ok false
    | pystr s => .ok (match b with | pystr s' => decide (s = s') | _ => false)
    | pynum q => .ok (match b with | pynum q' => decide (q = q') | _ => false)

/-! ### The flattening engine -/

/-- Attribute lookup `x.text`. -/
def getText : Node → Except PyErr String
  | fragment t _ => .ok t
  | _ => .error .attributeError

/-- Attribute lookup `x.weight`. -/
def getWeight : Node → Except PyErr ℚ
  | fragment _ w => .ok w
  | attention w _ => .ok w
  | _ => .error .attributeError

/-- `for x in v`: iterating a value; only lists and `ParseResults` are
iterable here. -/
def asIterable : Node → Except PyErr (List Node)
  | pylist l => .ok l
  | parseResults l => .ok l
  | _ => .error .typeError

/-- `fuse_fragments` from `PromptParser.flatten`: left-to-right scan of a
buffer, fusing a plain item into the previous one when both carry equal
weights; `CrossAttentionControlSubstitute` items get their two sides fused
independently and break the adjacency chain.  The accumulator mirrors the
`result` list of the source; fuel is spent on every step. -/
def fuseFragments : Nat → List Node → List Node → Except PyErr (List Node)
  | 0, _, _ => .error .fuel
  | _ + 1, [], result => .ok result
  | n + 1, x :: xs, result =>
    match x with
    | cacs o e => do
      let ol ← asIterable o
      let el ← asIterable e
      let originalFused ← fuseFragments n ol []
      let editedFused ← fuseFragments n el []
      fuseFragments n xs (result ++ [cacs (pylist originalFused) (pylist editedFused)])
    | _ => do
      let lastWeight : Option ℚ ←
        match result.getLast? with
        | some l => if isCACF l then pure none else do pure (some (← getWeight l))
        | none => pure none
      let thisText ← getText x
      let thisWeight ← getWeight x
      match lastWeight with
      | some lw =>
        if lw = thisWeight then do
          let lastText ← getText (result.getLast?.getD (pystr ""))
          fuseFragments n xs
            (result.dropLast ++ [fragment (lastText ++ " " ++ thisText) lw])
        else fuseFragments n xs (result ++ [x])
      | none => fuseFragments n xs (result ++ [x])

/-- `flatten_internal`: propagates the multiplicative `weight_scale`
downward, expanding `ParseResults` lists, dissolving `Attention` nodes,
scaling `Fragment`s, independently flattening the two sides of a
substitution, rebuilding `Blend`s, and fusing/wrapping `Prompt`s into
`FlattenedPrompt`s; any other node type raises `ParsingException`. -/
def flattenInternal : Nat → Node → ℚ → List Node → Except PyErr (List Node)
  | 0, _, _, _ => .error .fuel
  | n + 1, node, weightScale, results =>
    match node with
    | parseResults l =>
      l.foldlM (fun acc x => flattenInternal n x weightScale acc) results
    | attention w cs =>
      cs.foldlM (fun acc c => flattenInternal n c (qmul weightScale w) acc) results
    | fragment t w => .ok (results ++ [fragment t (qmul w weightScale)])
    | cacs o e => do
      let original ← flattenInternal n o weightScale []
      let edited ← flattenInternal n e weightScale []
      .ok (results ++ [cacs (pylist original) (pylist edited)])
    | blend ps ws _ => do
      let flattenedSubprompts ← ps.foldlM
        (fun acc p => flattenInternal n p weightScale acc) []
      let b ← mkBlend flattenedSubprompts ws true
      .ok (results ++ [b])
    | prompt cs => do
      let flattenedPrompt ← cs.foldlM
        (fun acc c => flattenInternal n c weightScale acc) []
      let fused ← fuseFragments n flattenedPrompt []
      let fp ← mkFlattenedPrompt (fused.map FPart.node)
      .ok (results ++ [fp])
    | _ => .error .parsingException

/-- `PromptParser.flatten`: flattens every part of the root `Conjunction`
with initial scale `1.0` and rebuilds a `Conjunction` carrying the same
weights. -/
def flatten (fuel : Nat) (root : Node) : Except PyErr Node :=
  match root with
  | conjunction ps ws => do
    let flattenedParts ← ps.foldlM
      (fun acc p => do pure (acc ++ (← flattenInternal fuel p (mkRat 1 1) []))) []
    mkConjunction flattenedParts (some ws)
  | _ => .error .attributeError

/-! ### The grammar

`build_parser_logic` is embedded as an executable interpreter over
`List Char`.  Every pyparsing element of the source grammar is given its
pyparsing-3.0.9 operational meaning:

* every element except `CharsNotIn` and the interior of a `Combine`
  skips leading `' '`, `'\t'`, `'\n'`, `'\r'` before matching
  (`CharsNotIn` instances only ever match after a `MatchFirst` whose
  other alternatives all pre-parse, so the skip has already happened);
* `MatchFirst` (`|`) takes the first alternative that matches; `Or`
  (used only by `parenthesized_fragment`) takes the longest match with
  ties resolved towards the first listed alternative, and parse actions
  run only on the winner;
* `delimited_list(expr, delim=string.whitespace)` degenerates to a
  single `expr`: its delimiter is `Literal(" \t\n\r\x0b\x0c")`, whose own
  whitespace skipping consumes the leading spaces of any candidate
  match, so it can never succeed;
* a `pyparsing.ParseException` raised by a parse action (for example by
  the recursive `parse_string` inside `parse_fragment_str`) makes the
  owning alternative fail; a `ParsingException` raised by a node
  constructor propagates to the caller;
* `parse_string` is called without `parse_all`; the `prompt` production
  ends in its own `StringEnd`.

Match results are `Except PyErr (Option (List Char × List Tok))`:
`.ok none` is a backtrackable parse failure, `.error` is a propagating
Python exception, and a success carries the remaining input plus the
produced tokens. -/

/-- pyparsing token values: strings, floats, AST nodes and nested
`Group`/`ParseResults` lists. -/
inductive Tok where
  | str (s : String)
  | num (q : ℚ)
  | node (n : Node)
  | group (ts : List Tok)

/-- Interpret a token as the Python value stored into the raw tree. -/
def toNode : Nat → Tok → Node
  | 0, _ => pystr ""
  | _ + 1, .str s => pystr s
  | _ + 1, .num q => pynum q
  | _ + 1, .node nd => nd
  | n + 1, .group ts => parseResults (ts.map (toNode n))

abbrev POut := Except PyErr (Option (List Char × List Tok))
abbrev P := List Char → POut

/-- `Literal` match at a position: skip whitespace, then require the
exact characters. -/
def litMatch : List Char → List Char → Option (List Char)
  | [], cs => some cs
  | _ :: _, [] => none
  | l :: ls, c :: cs => if c = l then litMatch ls cs else none

def pLit (lit : String) (cs : List Char) : Option (List Char) :=
  litMatch lit.data (skipWS cs)

/-- Ordered choice (`MatchFirst`). -/
def orP (p q : P) : P := fun cs =>
  match p cs with
  | .ok none => q cs
  | r => r

/-- The repetition loop shared by `ZeroOrMore`/`OneOrMore`: iterate the
item, accumulating tokens, until it fails; a raised exception stops
everything.  Fuel bounds the number of iterations (every item of this
grammar consumes at least one character, so `length + 1` suffices). -/
def manyLoop (item : P) : Nat → List Char → List Tok → POut
  | 0, _, _ => .error .fuel
  | n + 1, cs, acc =>
    match item cs with
    | .error e => .error e
    | .ok none => .ok (some (cs, acc))
    | .ok (some (cs', ts)) => manyLoop item n cs' (acc ++ ts)

/-- `OneOrMore`. -/
def oneOrMoreP (item : P) : P := fun cs =>
  match item cs with
  | .error e => .error e
  | .ok none => .ok none
  | .ok (some (cs1, t1)) => manyLoop item (cs1.length + 1) cs1 t1

/-- `expr + ZeroOrMore(Suppress(',') + expr)` — `delimited_list` with the
default comma delimiter. -/
def delimLoop (item : P) : Nat → List Char → List Tok → POut
  | 0, _, _ => .error .fuel
  | n + 1, cs, acc =>
    match pLit "," cs with
    | none => .ok (some (cs, acc))
    | some r1 =>
      match item r1 with
      | .error e => .error e
      | .ok none => .ok (some (cs, acc))
      | .ok (some (cs', ts)) => delimLoop item n cs' (acc ++ ts)

def delimitedP (item : P) : P := fun cs =>
  match item cs with
  | .error e => .error e
  | .ok none => .ok none
  | .ok (some (cs1, t1)) => delimLoop item (cs1.length + 1) cs1 t1

/-- `pyparsing_common.real`: regex `[+-]?(?:\d+\.\d*|\.\d+)` (no leading
skip here; the callers skip). -/
def realScan (cs : List Char) : Option (List Char × ℚ) :=
  let neg : Bool := match cs with | '-' :: _ => true | _ => false
  let body : List Char := match cs with
    | '+' :: r => r
    | '-' :: r => r
    | r => r
  let s1 := spanP isDigitChar body
  match s1.1, s1.2 with
  | [], '.' :: r2 =>
    let s2 := spanP isDigitChar r2
    if s2.1 = [] then none
    else
      let q := mkRat (digitsToNat s2.1) (10 ^ s2.1.length)
      some (s2.2, if neg then mkRat (-q.num) q.den else q)
  | ds, '.' :: r2 =>
    let s2 := spanP isDigitChar r2
    let q := qadd (mkRat (digitsToNat ds) 1) (mkRat (digitsToNat s2.1) (10 ^ s2.1.length))
    some (s2.2, if neg then mkRat (-q.num) q.den else q)
  | _, _ => none

/-- `number = pyparsing_common.real | Word(nums) -> float`. -/
def numberScan (cs : List Char) : Option (List Char × ℚ) :=
  let cs' := skipWS cs
  match realScan cs' with
  | some r => some r
  | none =>
    let s := spanP isDigitChar cs'
    if s.1 = [] then none else some (s.2, mkRat (digitsToNat s.1) 1)

def numberItem : P := fun cs =>
  match numberScan cs with
  | some (r, q) => .ok (some (r, [.num q]))
  | none => .ok none

/-- `attention_head = number | Word('+') | Word('-')`. -/
def attentionHead (cs : List Char) : Option (List Char × Tok) :=
  let cs' := skipWS cs
  match realScan cs' with
  | some (r, q) => some (r, .num q)
  | none =>
    let d := spanP isDigitChar cs'
    if d.1 ≠ [] then some (d.2, .num (mkRat (digitsToNat d.1) 1))
    else
      let p := spanP (fun c => c = '+') cs'
      if p.1 ≠ [] then some (p.2, .str p.1.asString)
      else
        let m := spanP (fun c => c = '-') cs'
        if m.1 ≠ [] then some (m.2, .str m.1.asString)
        else none

/-- `make_attention`: a numeric head is the weight itself; a `+`/`-` run
of length `k` gives `plus_base ** k` / `minus_base ** k`; otherwise the
weight stays at its initial value `1`. -/
def makeAttention (plusBase minusBase : ℚ) (head : Tok) (children : List Node) : Node :=
  match head with
  | .num q => attention q children
  | .str s =>
    let base := if s.data.head? = some '+' then plusBase else minusBase
    attention (qpow base s.length) children
  | _ => attention (mkRat 1 1) children

/-- Interior of the `Combine` in `unquoted_fragment`: adjacent repeats of
`Literal('\\"') | Literal('\\') | Word(printables minus whitespace, '\\',
'"')`, concatenated verbatim. -/
def uqScan : List Char → List Char × List Char
  | [] => ([], [])
  | '\\' :: '"' :: cs =>
    let r := uqScan cs
    ('\\' :: '"' :: r.1, r.2)
  | '\\' :: cs =>
    let r := uqScan cs
    ('\\' :: r.1, r.2)
  | c :: cs =>
    if uqChar c then
      let r := uqScan cs
      (c :: r.1, r.2)
    else ([], c :: cs)

/-- `unquoted_fragment` (a `Forward` around the `Combine`, so it skips
leading whitespace) with its `make_fragment` action. -/
def unquotedFragment : P := fun cs =>
  let cs' := skipWS cs
  let r := uqScan cs'
  if r.1 = [] then .ok none
  else .ok (some (r.2, [.node (fragment r.1.asString (mkRat 1 1))]))

/-- Interior of the `Combine` in the unquoted branch of
`parenthesized_fragment`: `Literal('\\)') | Literal('\\') |
Word(printables minus whitespace, '\\', ')') | Word(string.whitespace)`. -/
def parenScan : List Char → List Char × List Char
  | [] => ([], [])
  | '\\' :: ')' :: cs =>
    let r := parenScan cs
    ('\\' :: ')' :: r.1, r.2)
  | '\\' :: cs =>
    let r := parenScan cs
    ('\\' :: r.1, r.2)
  | c :: cs =>
    if parenChar c || isPyWS c then
      let r := parenScan cs
      (c :: r.1, r.2)
    else ([], c :: cs)

/-- `QuotedString('"', esc_char='\\')` body, to be run after the opening
quote: regex `(?:(?:\\.)|(?:[^"\n\r\\]))*` followed by the closing quote.
Returns the raw (still escaped) content and the input after the closing
quote. -/
def qsScan : List Char → Option (List Char × List Char)
  | [] => none
  | '"' :: cs => some ([], cs)
  | '\\' :: c :: cs =>
    if c = '\n' then none
    else (qsScan cs).map fun r => ('\\' :: c :: r.1, r.2)
  | c :: cs =>
    if c = '\n' || c = '\r' || c = '\\' then none
    else (qsScan cs).map fun r => (c :: r.1, r.2)

/-- One `str.replace` pass for a two-character pattern. -/
def replacePair (a b r : Char) : List Char → List Char
  | [] => []
  | [x] => [x]
  | x :: y :: rest =>
    if x = a && y = b then r :: replacePair a b r rest
    else x :: replacePair a b r (y :: rest)

/-- `re.sub(r"\\(.)", r"\g<1>", s)`: drop each backslash together with
keeping the following character (a trailing lone backslash survives). -/
def escSub : List Char → List Char
  | [] => []
  | '\\' :: c :: rest => c :: escSub rest
  | x :: rest => x :: escSub rest

/-- `QuotedString` post-processing after stripping the quotes: the
whitespace-escape map (`\t`, `\n`, `\f`, `\r`, applied in this order and
only when a backslash is present), then the escape-character
substitution. -/
def qsPost (raw : List Char) : String :=
  let r1 :=
    if raw.contains '\\' then
      replacePair '\\' 'r' '\r'
        (replacePair '\\' 'f' '\x0c'
          (replacePair '\\' 'n' '\n'
            (replacePair '\\' 't' '\t' raw)))
    else raw
  (escSub r1).asString

/-- Content regex of `pyparsing.dbl_quoted_string` (run after the opening
quote): `(?:[^"\n\r\\]|(?:"")|(?:\\(?:[^x]|x[0-9a-fA-F]+)))*`; the
closing quote is a separate `Literal`, with no backtracking between the
greedy regex and that literal. -/
def dqContent : Nat → List Char → List Char × List Char
  | 0, cs => ([], cs)
  | n + 1, cs =>
    match cs with
    | '"' :: '"' :: rest =>
      let r := dqContent n rest
      ('"' :: '"' :: r.1, r.2)
    | '\\' :: 'x' :: rest =>
      let h := spanP isHexChar rest
      if h.1 = [] then ([], cs)
      else
        let r := dqContent n h.2
        ('\\' :: 'x' :: (h.1 ++ r.1), r.2)
    | '\\' :: c :: rest =>
      let r := dqContent n rest
      ('\\' :: c :: r.1, r.2)
    | c :: rest =>
      if c = '"' || c = '\n' || c = '\r' || c = '\\' then ([], c :: rest)
      else
        let r := dqContent n rest
        (c :: r.1, r.2)
    | [] => ([], [])

/-- `dbl_quoted_string` (skips leading whitespace, keeps the quotes). -/
def dblQuotedRaw (cs : List Char) : Option (List Char × List Char) :=
  match skipWS cs with
  | '"' :: cs1 =>
    let r := dqContent (cs1.length + 1) cs1
    match r.2 with
    | '"' :: rest => some ('"' :: (r.1 ++ ['"']), rest)
    | _ => none
  | _ => none

/-- Content regex of `pyparsing.sgl_quoted_string`. -/
def sqContent : Nat → List Char → List Char × List Char
  | 0, cs => ([], cs)
  | n + 1, cs =>
    match cs with
    | '\'' :: '\'' :: rest =>
      let r := sqContent n rest
      ('\'' :: '\'' :: r.1, r.2)
    | '\\' :: 'x' :: rest =>
      let h := spanP isHexChar rest
      if h.1 = [] then ([], cs)
      else
        let r := sqContent n h.2
        ('\\' :: 'x' :: (h.1 ++ r.1), r.2)
    | '\\' :: c :: rest =>
      let r := sqContent n rest
      ('\\' :: c :: r.1, r.2)
    | c :: rest =>
      if c = '\'' || c = '\n' || c = '\r' || c = '\\' then ([], c :: rest)
      else
        let r := sqContent n rest
        (c :: r.1, r.2)
    | [] => ([], [])

def sglQuotedRaw (cs : List Char) : Option (List Char × List Char) :=
  match skipWS cs with
  | '\'' :: cs1 =>
    let r := sqContent (cs1.length + 1) cs1
    match r.2 with
    | '\'' :: rest => some ('\'' :: (r.1 ++ ['\'']), rest)
    | _ => none
  | _ => none

/-- `pyparsing.quoted_string`, the default `ignore_expr` of
`nested_expr`: a double- or single-quoted string kept verbatim with its
quotes as a plain string token. -/
def quotedStringRaw : P := fun cs =>
  match dblQuotedRaw cs with
  | some (w, rest) => .ok (some (rest, [.str w.asString]))
  | none =>
    match sglQuotedRaw cs with
    | some (w, rest) => .ok (some (rest, [.str w.asString]))
    | none => .ok none

/-- `fragment_inside_attention = CharsNotIn(string.whitespace + '()')`
with `make_fragment` (no leading skip of its own). -/
def fragmentInsideAttention : P := fun cs =>
  let r := spanP fiaChar cs
  if r.1 = [] then .ok none
  else .ok (some (r.2, [.node (fragment r.1.asString (mkRat 1 1))]))

/-- `attention_without_parens`: a `+`/`-` run immediately (no intervening
whitespace) followed by `CharsNotIn(string.whitespace + '()')`; the
action wraps the word in a one-fragment child list for
`make_attention`. -/
def attentionWithoutParens : P := fun cs =>
  let cs' := skipWS cs
  let p := spanP (fun c => c = '+') cs'
  let headRun : Option (List Char × List Char) :=
    if p.1 ≠ [] then some (p.1, p.2)
    else
      let m := spanP (fun c => c = '-') cs'
      if m.1 ≠ [] then some (m.1, m.2) else none
  match headRun with
  | none => .ok none
  | some (hs, rest) =>
    let w := spanP fiaChar rest
    if w.1 = [] then .ok none
    else
      .ok (some (w.2, [.node (makeAttention (mkRat 11 10) (mkRat 9 10) (.str hs.asString)
        [fragment w.1.asString (mkRat 1 1)])]))

/-- `empty_string = (lparen + rparen) | Literal('""').suppress() |
(lparen + Literal('""').suppress() + rparen)`, producing `Fragment("")`. -/
def emptyString : P := fun cs =>
  let one : Option (List Char) :=
    match pLit "(" cs with
    | some r1 => pLit ")" r1
    | none => none
  match one with
  | some r => .ok (some (r, [.node (fragment "" (mkRat 1 1))]))
  | none =>
    match pLit "\"\"" cs with
    | some r => .ok (some (r, [.node (fragment "" (mkRat 1 1))]))
    | none =>
      let three : Option (List Char) :=
        match pLit "(" cs with
        | some r1 =>
          match pLit "\"\"" r1 with
          | some r2 => pLit ")" r2
          | none => none
        | none => none
      match three with
      | some r => .ok (some (r, [.node (fragment "" (mkRat 1 1))]))
      | none => .ok none

/-- `Word(string.whitespace)` (kept, not suppressed) inside the `empty`
production; its own whitespace-skip runs first, so it can only ever match
a run starting with `'\x0b'` or `'\x0c'`. -/
def wordPyWS : P := fun cs =>
  let cs' := skipWS cs
  let r := spanP isPyWS cs'
  if r.1 = [] then .ok none
  else .ok (some (r.2, [.str r.1.asString]))

/-- `empty = (lparen + ZeroOrMore(Word(whitespace)) + rparen) |
(quotes + ZeroOrMore(Word(whitespace)) + quotes)`. -/
def emptyProd : P := fun cs =>
  let branch : String → String → P := fun o c cs =>
    match pLit o cs with
    | none => .ok none
    | some r1 =>
      match manyLoop wordPyWS (r1.length + 1) r1 [] with
      | .error e => .error e
      | .ok none => .ok none
      | .ok (some (r2, toks)) =>
        match pLit c r2 with
        | some r3 => .ok (some (r3, toks))
        | none => .ok none
  orP (branch "(" ")") (branch "\"" "\"") cs

/-- The mutually recursive productions of `build_parser_logic`.
`fragWords` is the local `fragment_parser` built inside
`parse_fragment_str`. -/
inductive GRule where
  | conjunctionTop
  | conjParens
  | blendR
  | quotedPrompt
  | promptR
  | promptPart
  | cacsR
  | attentionR
  | attWithParens
  | nestedBody
  | nestedItem
  | quotedFrag
  | parenFrag
  | fragWords

/-- extract the `float` weights collected by a weights `Group`. -/
def toWeights (ts : List Tok) : List ℚ :=
  ts.filterMap fun t => match t with | .num q => some q | _ => none

/-- One step of every production, parameterised by the recursive
continuation `next` (tied by `run` below). -/
def ruleBody (next : GRule → P) : GRule → P
  | .conjunctionTop => fun cs =>
    -- conjunction = conjunction_with_parens_and_quotes | implicit_conjunction
    match next .conjParens cs with
    | .ok none =>
      -- implicit_conjunction = OneOrMore(blend | prompt) -> Conjunction(x)
      match oneOrMoreP (orP (next .blendR) (next .promptR)) cs with
      | .error e => .error e
      | .ok none => .ok none
      | .ok (some (r1, toks)) =>
        match mkConjunction (toks.map (toNode (cs.length + 2))) none with
        | .error e => .error e
        | .ok c => .ok (some (r1, [.node c]))
    | r => r
  | .conjParens => fun cs =>
    match pLit "(" cs with
    | none => .ok none
    | some r1 =>
      match delimitedP (next .quotedPrompt) r1 with
      | .error e => .error e
      | .ok none => .ok none
      | .ok (some (r2, terms)) =>
        match pLit ")" r2 with
        | none => .ok none
        | some r3 =>
          match pLit ".and" r3 with
          | none => .ok none
          | some r4 =>
            match pLit "(" r4 with
            | none => .ok none
            | some r5 =>
              -- Optional(Group(conjunction_weights))
              let parts := terms.map (toNode (cs.length + 2))
              match delimitedP numberItem r5 with
              | .error e => .error e
              | .ok (some (r6, wts)) =>
                match pLit ")" r6 with
                | none => .ok none
                | some r7 =>
                  match mkConjunction parts (some (toWeights wts)) with
                  | .error e => .error e
                  | .ok c => .ok (some (r7, [.node c]))
              | .ok none =>
                match pLit ")" r5 with
                | none => .ok none
                | some r7 =>
                  match mkConjunction parts
                      (some (List.replicate parts.length (mkRat 1 1))) with
                  | .error e => .error e
                  | .ok c => .ok (some (r7, [.node c]))
  | .blendR => fun cs =>
    match pLit "(" cs with
    | none => .ok none
    | some r1 =>
      match delimitedP (next .quotedPrompt) r1 with
      | .error e => .error e
      | .ok none => .ok none
      | .ok (some (r2, terms)) =>
        match pLit ")" r2 with
        | none => .ok none
        | some r3 =>
          match pLit ".blend" r3 with
          | none => .ok none
          | some r4 =>
            match pLit "(" r4 with
            | none => .ok none
            | some r5 =>
              match delimitedP numberItem r5 with
              | .error e => .error e
              | .ok none => .ok none
              | .ok (some (r6, wts)) =>
                match pLit ")" r6 with
                | none => .ok none
                | some r7 =>
                  match mkBlend (terms.map (toNode (cs.length + 2))) (toWeights wts) true with
                  | .error e => .error e
                  | .ok b => .ok (some (r7, [.node b]))
  | .quotedPrompt => fun cs =>
    match dblQuotedRaw cs with
    | none => .ok none
    | some (whole, rest) =>
      -- make_prompt_from_quoted_string: strip the quotes, re-parse
      let inner := (whole.drop 1).dropLast
      if (pyStrip inner.asString).length = 0 then
        .ok (some (rest, [.node (prompt [fragment "" (mkRat 1 1)])]))
      else
        match next .promptR inner with
        | .error e => .error e
        | .ok none => .ok none
        | .ok (some (_, ts)) =>
          match ts with
          | [.node p] => .ok (some (rest, [.node p]))
          | _ => .error .indexError
  | .promptR => fun cs =>
    -- prompt = Group(OneOrMore(prompt_part) | empty) + StringEnd -> Prompt(x[0])
    match orP (oneOrMoreP (next .promptPart)) emptyProd cs with
    | .error e => .error e
    | .ok none => .ok none
    | .ok (some (r1, toks)) =>
      if skipWS r1 = [] then
        match mkPrompt (toks.map (toNode (cs.length + 2))) with
        | .error e => .error e
        | .ok p => .ok (some ([], [.node p]))
      else .ok none
  | .promptPart => fun cs =>
    orP (next .cacsR)
      (orP (next .attentionR) (orP (next .quotedFrag) unquotedFragment)) cs
  | .cacsR => fun cs =>
    -- original_fragment + Suppress(".swap") + parenthesized_fragment
    match orP emptyString
        (orP (next .quotedFrag) (orP (next .parenFrag) unquotedFragment)) cs with
    | .error e => .error e
    | .ok none => .ok none
    | .ok (some (r1, t0s)) =>
      match pLit ".swap" r1 with
      | none => .ok none
      | some r2 =>
        match next .parenFrag r2 with
        | .error e => .error e
        | .ok none => .ok none
        | .ok (some (r3, t1s)) =>
          match t0s, t1s with
          | [t0], [t1] =>
            .ok (some (r3, [.node (cacs (toNode (cs.length + 2) t0)
              (toNode (cs.length + 2) t1))]))
          | _, _ => .error .indexError
  | .attentionR => fun cs =>
    orP (next .attWithParens) attentionWithoutParens cs
  | .attWithParens => fun cs =>
    match attentionHead cs with
    | none => .ok none
    | some (r1, h) =>
      match next .nestedBody r1 with
      | .error e => .error e
      | .ok none => .ok none
      | .ok (some (r2, bodyToks)) =>
        match bodyToks with
        | [.group items] =>
          .ok (some (r2, [.node (makeAttention (mkRat 11 10) (mkRat 9 10) h
            (items.map (toNode (cs.length + 2))))]))
        | _ => .error .indexError
  | .nestedBody => fun cs =>
    -- nested_expr: Group(Suppress("(") + ZeroOrMore(item) + Suppress(")"))
    match pLit "(" cs with
    | none => .ok none
    | some r1 =>
      match manyLoop (next .nestedItem) (r1.length + 1) r1 [] with
      | .error e => .error e
      | .ok none => .ok none
      | .ok (some (r2, items)) =>
        match pLit ")" r2 with
        | some r3 => .ok (some (r3, [.group items]))
        | none => .ok none
  | .nestedItem => fun cs =>
    -- quoted_string | <nested> | content; the surrounding MatchFirst
    -- pre-parses, so the whitespace skip happens before CharsNotIn.
    -- content = delimited_list(attention_with_parens |
    -- fragment_inside_attention, delim=whitespace) with an unmatchable
    -- delimiter, hence a single element.
    let cs' := skipWS cs
    orP quotedStringRaw
      (orP (next .nestedBody)
        (orP (next .attWithParens) fragmentInsideAttention)) cs'
  | .quotedFrag => fun cs =>
    -- quoted_fragment: QuotedString('"', esc_char='\\'); its parse action
    -- was globally replaced by parse_fragment_str when
    -- parenthesized_fragment was built.
    match skipWS cs with
    | '"' :: cs1 =>
      match qsScan cs1 with
      | none => .ok none
      | some (raw, rest) =>
        let s := qsPost raw
        if (pyStrip s).length = 0 then
          .ok (some (rest, [.node (fragment "" (mkRat 1 1))]))
        else
          match next .fragWords s.data with
          | .error e => .error e
          | .ok none => .ok none
          | .ok (some (_, ts)) => .ok (some (rest, ts))
    | _ => .ok none
  | .parenFrag => fun cs =>
    -- parenthesized_fragment: pp.Or of three parenthesised alternatives;
    -- longest raw match wins (ties to the first listed), and only the
    -- winner's parse action runs.
    let cs0 := skipWS cs
    let rawA : Option (List Char × List Char) :=
      match pLit "(" cs0 with
      | some r1 =>
        match skipWS r1 with
        | '"' :: r2 =>
          match qsScan r2 with
          | some (raw, r3) =>
            match pLit ")" r3 with
            | some r4 => some (raw, r4)
            | none => none
          | none => none
        | _ => none
      | none => none
    let rawB : Option (List Char) :=
      match pLit "(" cs0 with
      | some r1 => pLit ")" r1
      | none => none
    let rawC : Option (List Char × List Char) :=
      match pLit "(" cs0 with
      | some r1 =>
        let r1s := skipWS r1
        let sc := parenScan r1s
        if sc.1 = [] then none
        else
          match pLit ")" sc.2 with
          | some r4 => some (sc.1, r4)
          | none => none
      | none => none
    let la : Option Nat := rawA.map fun r => r.2.length
    let lb : Option Nat := rawB.map fun r => r.length
    let lc : Option Nat := rawC.map fun r => r.2.length
    let leOpt : Nat → Option Nat → Bool := fun m o =>
      match o with
      | none => true
      | some k => m ≤ k
    let runFragmentStr : List Char → List Char → POut := fun content rest =>
      let s := qsPost content
      if (pyStrip s).length = 0 then
        .ok (some (rest, [.node (fragment "" (mkRat 1 1))]))
      else
        match next .fragWords s.data with
        | .error e => .error e
        | .ok none => .ok none
        | .ok (some (_, ts)) => .ok (some (rest, ts))
    match la with
    | some m =>
      if leOpt m lb && leOpt m lc then
        match rawA with
        | some (raw, rest) => runFragmentStr raw rest
        | none => .ok none
      else
        match lb with
        | some mb =>
          if leOpt mb lc then
            match rawB with
            | some rest => .ok (some (rest, [.node (fragment "" (mkRat 1 1))]))
            | none => .ok none
          else
            match rawC with
            | some (content, rest) =>
              -- branch C's parse action receives the combined text verbatim
              let s := content.asString
              if (pyStrip s).length = 0 then
                .ok (some (rest, [.node (fragment "" (mkRat 1 1))]))
              else
                match next .fragWords content with
                | .error e => .error e
                | .ok none => .ok none
                | .ok (some (_, ts)) => .ok (some (rest, ts))
            | none => .ok none
        | none =>
          match rawC with
          | some (content, rest) =>
            let s := content.asString
            if (pyStrip s).length = 0 then
              .ok (some (rest, [.node (fragment "" (mkRat 1 1))]))
            else
              match next .fragWords content with
              | .error e => .error e
              | .ok none => .ok none
              | .ok (some (_, ts)) => .ok (some (rest, ts))
          | none => .ok none
    | none =>
      match lb with
      | some mb =>
        if leOpt mb lc then
          match rawB with
          | some rest => .ok (some (rest, [.node (fragment "" (mkRat 1 1))]))
          | none => .ok none
        else
          match rawC with
          | some (content, rest) =>
            let s := content.asString
            if (pyStrip s).length = 0 then
              .ok (some (rest, [.node (fragment "" (mkRat 1 1))]))
            else
              match next .fragWords content with
              | .error e => .error e
              | .ok none => .ok none
              | .ok (some (_, ts)) => .ok (some (rest, ts))
          | none => .ok none
      | none =>
        match rawC with
        | some (content, rest) =>
          let s := content.asString
          if (pyStrip s).length = 0 then
            .ok (some (rest, [.node (fragment "" (mkRat 1 1))]))
          else
            match next .fragWords content with
            | .error e => .error e
            | .ok none => .ok none
            | .ok (some (_, ts)) => .ok (some (rest, ts))
        | none => .ok none
  | .fragWords => fun cs =>
    -- fragment_parser = Group(OneOrMore(attention |
    -- Word(printables, exclude_chars=whitespace) -> make_fragment)),
    -- run by parse_string without parse_all.
    let wordItem : P := fun c3 =>
      let c4 := skipWS c3
      let r := spanP isPrintableAscii c4
      if r.1 = [] then .ok none
      else .ok (some (r.2, [.node (fragment r.1.asString (mkRat 1 1))]))
    match oneOrMoreP (orP (next .attentionR) wordItem) cs with
    | .error e => .error e
    | .ok none => .ok none
    | .ok (some (cs2, ts)) => .ok (some (cs2, [.group ts]))

/-- The grammar knot: structural recursion on fuel, one unit per descent
into a production. -/
def run : Nat → GRule → P
  | 0, _, _ => .error .fuel
  | n + 1, r, cs => ruleBody (run n) r cs

/-- Fuel large enough for every input: the recursion depth of the knot
grows only when input is consumed or a parenthesis level is entered. -/
def grammarFuel (s : String) : Nat := 16 * s.length + 64

/-- `PromptParser.parse` (with the default attention bases): blank input
short-circuits to the canonical empty `Conjunction`; otherwise the
top-level `conjunction` production runs (`parse_string`, so a raw
`ParseException` escapes when nothing matches) and the resulting raw
tree is flattened. -/
def parse (s : String) : Except PyErr Node :=
  if (pyStrip s).length = 0 then do
    let fp ← mkFlattenedPrompt [FPart.tup "" (mkRat 1 1)]
    mkConjunction [fp] (some [mkRat 1 1])
  else
    match run (grammarFuel s) .conjunctionTop s.data with
    | .error e => .error e
    | .ok none => .error .parseException
    | .ok (some (_, toks)) =>
      match toks with
      | .node c :: _ => flatten (grammarFuel s) c
      | _ => .error .typeError

/-! ### Specification-side predicates and functions

These are written from the spec/claim wording (not from the source) and
are compared against the embedded code by the theorems below. -/

/-- A tree containing no `Attention` node anywhere. -/
inductive AttnFree : Node → Prop where
  | fragment (t : String) (w : ℚ) : AttnFree (fragment t w)
  | cacs {o e : Node} : AttnFree o → AttnFree e → AttnFree (cacs o e)
  | cacAppend {f : Node} : AttnFree f → AttnFree (cacAppend f)
  | prompt {cs : List Node} : (∀ c ∈ cs, AttnFree c) → AttnFree (prompt cs)
  | flattened {cs : List Node} : (∀ c ∈ cs, AttnFree c) → AttnFree (flattened cs)
  | blend {ps : List Node} {ws : List ℚ} {nw : Bool} :
      (∀ p ∈ ps, AttnFree p) → AttnFree (blend ps ws nw)
  | conjunction {ps : List Node} {ws : List ℚ} :
      (∀ p ∈ ps, AttnFree p) → AttnFree (conjunction ps ws)
  | parseResults {l : List Node} : (∀ x ∈ l, AttnFree x) → AttnFree (parseResults l)
  | pylist {l : List Node} : (∀ x ∈ l, AttnFree x) → AttnFree (pylist l)
  | pystr (s : String) : AttnFree (pystr s)
  | pynum (q : ℚ) : AttnFree (pynum q)

/-- Trees built from attention and fragment constructors only — the
nesting shapes claim C2 quantifies over. -/
inductive AFTree : Node → Prop where
  | frag (t : String) (w : ℚ) : AFTree (fragment t w)
  | att (w : ℚ) {cs : List Node} : (∀ c ∈ cs, AFTree c) → AFTree (attention w cs)

/-- Specification-side resolved leaves of an attention/fragment tree: a
fragment keeps its own weight times the incoming scale, and an
`Attention` node multiplies the scale of every leaf beneath it
(claim C2's "product of its own weight and the weights of all enclosing
Attention nodes"). -/
def leavesF : Nat → Node → ℚ → List Node
  | 0, _, _ => []
  | _ + 1, fragment t w, sc => [fragment t (qmul w sc)]
  | n + 1, attention w cs, sc => cs.flatMap fun c => leavesF n c (qmul sc w)
  | _ + 1, _, _ => []

/-- One step of claim C3's fusion rule: "if the current item and the
immediately preceding item are both plain Fragments with equal weight,
replace the preceding item with a new Fragment whose text is
`previous.text + \" \" + current.text` (weight unchanged) instead of
appending". -/
def fuseStep (buf : List Node) (x : Node) : List Node :=
  match buf.getLast? with
  | some (fragment lt lw) =>
    match x with
    | fragment t w =>
      if lw = w then buf.dropLast ++ [fragment (lt ++ " " ++ t) w]
      else buf ++ [x]
    | _ => buf ++ [x]
  | _ => buf ++ [x]

/-- Claim C3's treatment of one buffer item: a substitute has its two
sides fused independently, is never fused with a neighbour, and (not
being a plain fragment) restarts the adjacency chain; everything else
follows `fuseStep`. -/
def fuseTopStep (buf : List Node) (x : Node) : List Node :=
  match x with
  | cacs (pylist a) (pylist b) =>
    buf ++ [cacs (pylist (a.foldl fuseStep [])) (pylist (b.foldl fuseStep []))]
  | _ => fuseStep buf x

/-- Claim C3's fusion rule over a whole buffer of flat items. -/
def fuseSpecTop (items : List Node) : List Node :=
  items.foldl fuseTopStep []

/-- The buffers claim C3 talks about: plain fragments and substitute
items whose two sides are lists of plain fragments. -/
inductive BufferItem : Node → Prop where
  | frag (t : String) (w : ℚ) : BufferItem (fragment t w)
  | sub {a b : List Node} :
      (∀ x ∈ a, ∃ t w, x = fragment t w) →
      (∀ x ∈ b, ∃ t w, x = fragment t w) →
      BufferItem (cacs (pylist a) (pylist b))

/-- Node kinds allowed inside a returned `FlattenedPrompt` (claim C4). -/
def resultChildOk (x : Node) : Prop :=
  (∃ t w, x = fragment t w) ∨ (∃ o e, x = cacs o e)

/-- Claim C4's shape for the value returned by `parse`: a `Conjunction`
whose branches are `FlattenedPrompt`s of fragments/substitutes or
`Blend`s. -/
def resultShape (res : Node) : Prop :=
  ∃ ps ws, res = conjunction ps ws ∧
    ∀ p ∈ ps,
      (∃ cs, p = flattened cs ∧ ∀ c ∈ cs, resultChildOk c) ∨
      (∃ bs bw nw, p = blend bs bw nw)

/-- Prompt/Blend/FlattenedPrompt — entries `Conjunction.__init__` keeps
unchanged. -/
def isPBF (x : Node) : Bool :=
  isPromptNode x || isBlendNode x || isFlattenedNode x

/-- Kinds a top-level `flatten_internal` output item can have. -/
def topOut (x : Node) : Prop :=
  (∃ t w, x = fragment t w) ∨ (∃ o e, x = cacs o e) ∨
  (∃ ps ws nw, x = blend ps ws nw ∧
    ∀ p ∈ ps, isPromptNode p = true ∨ isFlattenedNode p = true) ∨
  (∃ cs, x = flattened cs ∧ ∀ c ∈ cs, resultChildOk c)

/-- Accumulator invariant of the fuse loop: previously emitted items are
plain fragments or substitute nodes. -/
def bufAcc (x : Node) : Prop :=
  (∃ t w, x = fragment t w) ∨ (∃ o e, x = cacs o e)



/-! ## Theorems

First general-purpose lemmas about the embedded code, then one theorem
per claim (with witnesses/counterexamples where required). -/

theorem exceptBind_ok {ε α β : Type} (a : α) (f : α → Except ε β) :
    (Except.ok a >>= f : Except ε β) = f a := rfl

theorem exceptBind_error {ε α β : Type} (e : ε) (f : α → Except ε β) :
    (Except.error e >>= f : Except ε β) = .error e := rfl

theorem getLast?_mem' {α : Type} {l : List α} {x : α} (h : l.getLast? = some x) : x ∈ l := by
  rcases List.mem_getLast?_eq_getLast (Option.mem_def.mpr h) with ⟨hne, hx⟩
  subst hx
  exact List.getLast_mem hne

theorem qmul_one (w : ℚ) : qmul w 1 = w := by
  unfold qmul
  norm_num [Rat.mkRat_self]

theorem coerceAll_isPBF : ∀ ps : List Node, (∀ p ∈ ps, isPBF p = true) →
    coerceAll ps = .ok ps := by
  intro ps h
  induction ps with
  | nil => rfl
  | cons p ps ih =>
    have hp : isPBF p = true := h p (by simp)
    have hcoerce : coercePromptEntry p = .ok p := by
      unfold isPBF isPromptNode isBlendNode isFlattenedNode at hp
      cases p <;> simp_all [coercePromptEntry]
    have hrest := ih fun q hq => h q (by simp [hq])
    simp [coerceAll, hcoerce, hrest, exceptBind_ok]

theorem skipWS_not_ws {c : Char} (h : isSkipWS c = false) (l : List Char) :
    skipWS (c :: l) = c :: l := by
  simp [skipWS, h]

theorem spanP_all_stop (p : Char → Bool) : ∀ (l1 l2 : List Char),
    (∀ c ∈ l1, p c = true) →
    (l2 = [] ∨ ∃ c cs, l2 = c :: cs ∧ p c = false) →
    spanP p (l1 ++ l2) = (l1, l2) := by
  intro l1
  induction l1 with
  | nil =>
    intro l2 _ h2
    rcases h2 with h2 | ⟨c, cs, h2, hc⟩
    · subst h2; rfl
    · subst h2; simp [spanP, hc]
  | cons c l1 ih =>
    intro l2 h1 h2
    have hc : p c = true := h1 c (by simp)
    have hrec := ih l2 (fun x hx => h1 x (by simp [hx])) h2
    simp [List.cons_append, spanP, hc, List.append_eq, hrec]

/-- The multiplicative-scale law of `flatten_internal` on attention /
fragment trees (supports claim C2). -/
theorem flattenInternal_afTree :
    ∀ (n : Nat) (t : Node) (sc : ℚ) (acc r : List Node),
      AFTree t → flattenInternal n t sc acc = .ok r → r = acc ++ leavesF n t sc := by
  intro n
  induction n with
  | zero =>
    intro t sc acc r _ h
    simp [flattenInternal] at h
  | succ n ih =>
    intro t sc acc r hT h
    cases hT with
    | frag t w =>
      simp [flattenInternal] at h
      simp [leavesF, ← h]
    | att w hcs =>
      rename_i cs
      have aux : ∀ (l : List Node), (∀ c ∈ l, AFTree c) → ∀ (acc r : List Node),
          l.foldlM (fun a c => flattenInternal n c (qmul sc w) a) acc = .ok r →
          r = acc ++ l.flatMap (fun c => leavesF n c (qmul sc w)) := by
        intro l
        induction l with
        | nil =>
          intro _ acc r h0
          simp only [List.foldlM, pure, Except.pure, Except.ok.injEq] at h0
          simp [← h0]
        | cons c l ihl =>
          intro hmem acc r h0
          simp only [List.foldlM_cons] at h0
          cases hmid : flattenInternal n c (qmul sc w) acc with
          | error e => rw [hmid] at h0; simp [exceptBind_error] at h0
          | ok mid =>
            rw [hmid] at h0
            simp only [exceptBind_ok] at h0
            have h1 := ih c (qmul sc w) acc mid (hmem c (by simp)) hmid
            have h2 := ihl (fun x hx => hmem x (by simp [hx])) mid r h0
            subst h1 h2
            simp [List.flatMap_cons]
      have h0 : cs.foldlM (fun a c => flattenInternal n c (qmul sc w) a) acc = .ok r := by
        simpa [flattenInternal] using h
      have := aux cs hcs acc r h0
      simpa [leavesF] using this

theorem foldl_fuseStep_of_fragOnly :
    ∀ (a : List Node) (acc : List Node), (∀ x ∈ a, ∃ t w, x = fragment t w) →
      a.foldl fuseTopStep acc = a.foldl fuseStep acc := by
  intro a
  induction a with
  | nil => intro acc _; rfl
  | cons x xs ih =>
    intro acc h
    obtain ⟨t, w, hx⟩ := h x (by simp)
    subst hx
    simp only [List.foldl_cons]
    rw [show fuseTopStep acc (fragment t w) = fuseStep acc (fragment t w) from rfl]
    exact ih _ fun y hy => h y (by simp [hy])

/-- `fuse_fragments` realises claim C3's fusion rule on flat buffers. -/
theorem fuse_spec :
    ∀ (n : Nat) (items acc r : List Node),
      (∀ x ∈ items, BufferItem x) → (∀ x ∈ acc, bufAcc x) →
      fuseFragments n items acc = .ok r → r = items.foldl fuseTopStep acc := by
  intro n
  induction n with
  | zero =>
    intro items acc r _ _ h
    simp [fuseFragments] at h
  | succ n ih =>
    intro items acc r hitems hacc h
    match items with
    | [] =>
      simp only [fuseFragments, Except.ok.injEq] at h
      simp [← h]
    | x :: xs =>
      have hx := hitems x (by simp)
      have hxs : ∀ y ∈ xs, BufferItem y := fun y hy => hitems y (by simp [hy])
      cases hx with
      | frag t w =>
        cases hL : acc.getLast? with
        | none =>
          have hstep : fuseFragments (n + 1) (fragment t w :: xs) acc =
              fuseFragments n xs (acc ++ [fragment t w]) := by
            simp [fuseFragments, hL, getText, getWeight, exceptBind_ok]
          rw [hstep] at h
          have hacc' : ∀ y ∈ acc ++ [fragment t w], bufAcc y := by
            intro y hy
            rcases List.mem_append.mp hy with hy | hy
            · exact hacc y hy
            · simp at hy; subst hy; exact Or.inl ⟨t, w, rfl⟩
          have := ih xs _ r hxs hacc' h
          rw [this]
          simp [List.foldl_cons, fuseTopStep, fuseStep, hL]
        | some l =>
          rcases hacc l (getLast?_mem' hL) with ⟨lt, lw, hl⟩ | ⟨o, e, hl⟩
          · subst hl
            by_cases hw : lw = w
            · subst hw
              have hstep : fuseFragments (n + 1) (fragment t lw :: xs) acc =
                  fuseFragments n xs (acc.dropLast ++ [fragment (lt ++ " " ++ t) lw]) := by
                simp [fuseFragments, hL, getText, getWeight, isCACF, exceptBind_ok]
              rw [hstep] at h
              have hacc' : ∀ y ∈ acc.dropLast ++ [fragment (lt ++ " " ++ t) lw], bufAcc y := by
                intro y hy
                rcases List.mem_append.mp hy with hy | hy
                · exact hacc y (List.dropLast_subset _ hy)
                · simp at hy; subst hy; exact Or.inl ⟨_, _, rfl⟩
              have := ih xs _ r hxs hacc' h
              rw [this]
              simp [List.foldl_cons, fuseTopStep, fuseStep, hL]
            · have hstep : fuseFragments (n + 1) (fragment t w :: xs) acc =
                  fuseFragments n xs (acc ++ [fragment t w]) := by
                simp [fuseFragments, hL, getText, getWeight, isCACF, exceptBind_ok, hw]
              rw [hstep] at h
              have hacc' : ∀ y ∈ acc ++ [fragment t w], bufAcc y := by
                intro y hy
                rcases List.mem_append.mp hy with hy | hy
                · exact hacc y hy
                · simp at hy; subst hy; exact Or.inl ⟨t, w, rfl⟩
              have := ih xs _ r hxs hacc' h
              rw [this]
              simp [List.foldl_cons, fuseTopStep, fuseStep, hL, hw]
          · subst hl
            have hstep : fuseFragments (n + 1) (fragment t w :: xs) acc =
                fuseFragments n xs (acc ++ [fragment t w]) := by
              simp [fuseFragments, hL, getText, getWeight, isCACF, exceptBind_ok]
            rw [hstep] at h
            have hacc' : ∀ y ∈ acc ++ [fragment t w], bufAcc y := by
              intro y hy
              rcases List.mem_append.mp hy with hy | hy
              · exact hacc y hy
              · simp at hy; subst hy; exact Or.inl ⟨t, w, rfl⟩
            have := ih xs _ r hxs hacc' h
            rw [this]
            simp [List.foldl_cons, fuseTopStep, fuseStep, hL]
      | sub ha hb =>
        rename_i a b
        have hfa : ∀ x ∈ a, BufferItem x := by
          intro x hxa
          obtain ⟨t, w, hx⟩ := ha x hxa
          subst hx; exact BufferItem.frag t w
        have hfb : ∀ x ∈ b, BufferItem x := by
          intro x hxb
          obtain ⟨t, w, hx⟩ := hb x hxb
          subst hx; exact BufferItem.frag t w
        have hunf : fuseFragments (n + 1) (cacs (pylist a) (pylist b) :: xs) acc = (do
            let fa ← fuseFragments n a []
            let fb ← fuseFragments n b []
            fuseFragments n xs (acc ++ [cacs (pylist fa) (pylist fb)])) := by
          simp [fuseFragments, asIterable, exceptBind_ok]
        rw [hunf] at h
        cases hfa' : fuseFragments n a [] with
        | error e => rw [hfa'] at h; simp [exceptBind_error] at h
        | ok fa =>
          rw [hfa'] at h
          simp only [exceptBind_ok] at h
          cases hfb' : fuseFragments n b [] with
          | error e => rw [hfb'] at h; simp [exceptBind_error] at h
          | ok fb =>
            rw [hfb'] at h
            simp only [exceptBind_ok] at h
            have hfaeq := ih a [] fa hfa (by simp) hfa'
            have hfbeq := ih b [] fb hfb (by simp) hfb'
            rw [foldl_fuseStep_of_fragOnly a [] ha] at hfaeq
            rw [foldl_fuseStep_of_fragOnly b [] hb] at hfbeq
            have hacc' : ∀ y ∈ acc ++ [cacs (pylist fa) (pylist fb)], bufAcc y := by
              intro y hy
              rcases List.mem_append.mp hy with hy | hy
              · exact hacc y hy
              · simp at hy; subst hy; exact Or.inr ⟨_, _, rfl⟩
            have := ih xs _ r hxs hacc' h
            rw [this, hfaeq, hfbeq]
            simp [List.foldl_cons, fuseTopStep]

/-- A non-fragment, non-substitute buffer item makes `fuse_fragments`
raise (`x.text` does not exist), never succeed. -/
theorem fuse_cons_fails (n : Nat) (x : Node) (xs acc r : List Node)
    (hnc : ∀ o e, x ≠ cacs o e) (hgt : getText x = .error .attributeError) :
    fuseFragments (n + 1) (x :: xs) acc ≠ .ok r := by
  intro h
  cases x with
  | cacs o e => exact hnc o e rfl
  | fragment t w => simp [getText] at hgt
  | attention w cs =>
    simp only [fuseFragments] at h
    cases hL : acc.getLast? with
    | none => rw [hL] at h; simp [getText, exceptBind_ok, exceptBind_error] at h
    | some l =>
      rw [hL] at h
      by_cases hc : isCACF l
      · simp [hc, getText, exceptBind_ok, exceptBind_error] at h
      · cases hw : getWeight l with
        | error e => simp [hc, hw, getText, exceptBind_ok, exceptBind_error] at h
        | ok lw => simp [hc, hw, getText, exceptBind_ok, exceptBind_error] at h
  | cacAppend f =>
    simp only [fuseFragments] at h
    cases hL : acc.getLast? with
    | none => rw [hL] at h; simp [getText, exceptBind_ok, exceptBind_error] at h
    | some l =>
      rw [hL] at h
      by_cases hc : isCACF l
      · simp [hc, getText, exceptBind_ok, exceptBind_error] at h
      · cases hw : getWeight l with
        | error e => simp [hc, hw, getText, exceptBind_ok, exceptBind_error] at h
        | ok lw => simp [hc, hw, getText, exceptBind_ok, exceptBind_error] at h
  | prompt cs =>
    simp only [fuseFragments] at h
    cases hL : acc.getLast? with
    | none => rw [hL] at h; simp [getText, exceptBind_ok, exceptBind_error] at h
    | some l =>
      rw [hL] at h
      by_cases hc : isCACF l
      · simp [hc, getText, exceptBind_ok, exceptBind_error] at h
      · cases hw : getWeight l with
        | error e => simp [hc, hw, getText, exceptBind_ok, exceptBind_error] at h
        | ok lw => simp [hc, hw, getText, exceptBind_ok, exceptBind_error] at h
  | flattened cs =>
    simp only [fuseFragments] at h
    cases hL : acc.getLast? with
    | none => rw [hL] at h; simp [getText, exceptBind_ok, exceptBind_error] at h
    | some l =>
      rw [hL] at h
      by_cases hc : isCACF l
      · simp [hc, getText, exceptBind_ok, exceptBind_error] at h
      · cases hw : getWeight l with
        | error e => simp [hc, hw, getText, exceptBind_ok, exceptBind_error] at h
        | ok lw => simp [hc, hw, getText, exceptBind_ok, exceptBind_error] at h
  | blend ps ws nw =>
    simp only [fuseFragments] at h
    cases hL : acc.getLast? with
    | none => rw [hL] at h; simp [getText, exceptBind_ok, exceptBind_error] at h
    | some l =>
      rw [hL] at h
      by_cases hc : isCACF l
      · simp [hc, getText, exceptBind_ok, exceptBind_error] at h
      · cases hw : getWeight l with
        | error e => simp [hc, hw, getText, exceptBind_ok, exceptBind_error] at h
        | ok lw => simp [hc, hw, getText, exceptBind_ok, exceptBind_error] at h
  | conjunction ps ws =>
    simp only [fuseFragments] at h
    cases hL : acc.getLast? with
    | none => rw [hL] at h; simp [getText, exceptBind_ok, exceptBind_error] at h
    | some l =>
      rw [hL] at h
      by_cases hc : isCACF l
      · simp [hc, getText, exceptBind_ok, exceptBind_error] at h
      · cases hw : getWeight l with
        | error e => simp [hc, hw, getText, exceptBind_ok, exceptBind_error] at h
        | ok lw => simp [hc, hw, getText, exceptBind_ok, exceptBind_error] at h
  | parseResults ls =>
    simp only [fuseFragments] at h
    cases hL : acc.getLast? with
    | none => rw [hL] at h; simp [getText, exceptBind_ok, exceptBind_error] at h
    | some l =>
      rw [hL] at h
      by_cases hc : isCACF l
      · simp [hc, getText, exceptBind_ok, exceptBind_error] at h
      · cases hw : getWeight l with
        | error e => simp [hc, hw, getText, exceptBind_ok, exceptBind_error] at h
        | ok lw => simp [hc, hw, getText, exceptBind_ok, exceptBind_error] at h
  | pylist ls =>
    simp only [fuseFragments] at h
    cases hL : acc.getLast? with
    | none => rw [hL] at h; simp [getText, exceptBind_ok, exceptBind_error] at h
    | some l =>
      rw [hL] at h
      by_cases hc : isCACF l
      · simp [hc, getText, exceptBind_ok, exceptBind_error] at h
      · cases hw : getWeight l with
        | error e => simp [hc, hw, getText, exceptBind_ok, exceptBind_error] at h
        | ok lw => simp [hc, hw, getText, exceptBind_ok, exceptBind_error] at h
  | pystr s =>
    simp only [fuseFragments] at h
    cases hL : acc.getLast? with
    | none => rw [hL] at h; simp [getText, exceptBind_ok, exceptBind_error] at h
    | some l =>
      rw [hL] at h
      by_cases hc : isCACF l
      · simp [hc, getText, exceptBind_ok, exceptBind_error] at h
      · cases hw : getWeight l with
        | error e => simp [hc, hw, getText, exceptBind_ok, exceptBind_error] at h
        | ok lw => simp [hc, hw, getText, exceptBind_ok, exceptBind_error] at h
  | pynum q =>
    simp only [fuseFragments] at h
    cases hL : acc.getLast? with
    | none => rw [hL] at h; simp [getText, exceptBind_ok, exceptBind_error] at h
    | some l =>
      rw [hL] at h
      by_cases hc : isCACF l
      · simp [hc, getText, exceptBind_ok, exceptBind_error] at h
      · cases hw : getWeight l with
        | error e => simp [hc, hw, getText, exceptBind_ok, exceptBind_error] at h
        | ok lw => simp [hc, hw, getText, exceptBind_ok, exceptBind_error] at h

theorem getText_ok {x : Node} {t : String} (h : getText x = .ok t) : ∃ w, x = fragment t w := by
  cases x <;> simp [getText] at h <;> exact ⟨_, by rw [h]⟩

theorem mkBlend_ok {ps : List Node} {ws : List ℚ} {nw : Bool} {b : Node}
    (h : mkBlend ps ws nw = .ok b) :
    b = blend ps ws nw ∧ ∀ p ∈ ps, isPromptNode p = true ∨ isFlattenedNode p = true := by
  unfold mkBlend at h
  split at h
  · exact absurd h (by simp)
  · split at h
    · rename_i hall
      refine ⟨by simpa using h.symm, ?_⟩
      intro p hp
      have := (List.all_eq_true.mp hall) p hp
      simpa using this
    · exact absurd h (by simp)

theorem convertFParts_map_node {l : List Node} {c : List Node}
    (h : convertFParts (l.map FPart.node) = .ok c) : c = l := by
  induction l generalizing c with
  | nil => simpa [convertFParts] using h.symm
  | cons x xs ih =>
    simp only [List.map_cons, convertFParts] at h
    by_cases hb : isBaseFragment x = true
    · rw [if_pos hb] at h
      simp only [exceptBind_ok] at h
      cases hrest : convertFParts (xs.map FPart.node) with
      | error e => rw [hrest] at h; simp [exceptBind_error] at h
      | ok cs =>
        rw [hrest] at h
        simp only [exceptBind_ok, Except.ok.injEq] at h
        rw [← h, ih hrest]
    · rw [if_neg hb] at h
      simp [exceptBind_error] at h

theorem mkFlattenedPrompt_map_node {l : List Node} {fp : Node}
    (h : mkFlattenedPrompt (l.map FPart.node) = .ok fp) : fp = flattened l := by
  unfold mkFlattenedPrompt at h
  cases hc : convertFParts (l.map FPart.node) with
  | error e => rw [hc] at h; simp [exceptBind_error] at h
  | ok c =>
    rw [hc] at h
    simp only [exceptBind_ok, Except.ok.injEq] at h
    rw [← h, convertFParts_map_node hc]

/-- Successful fuse outputs are plain fragments and substitutes of fused
`pylist` sides, and are attention-free. -/
theorem fuse_out :
    ∀ (n : Nat) (items acc r : List Node),
      fuseFragments n items acc = .ok r →
      (∀ x ∈ acc, resultChildOk x ∧ AttnFree x) →
      ∀ x ∈ r, resultChildOk x ∧ AttnFree x := by
  intro n
  induction n with
  | zero => intro items acc r h _; simp [fuseFragments] at h
  | succ n ih =>
    intro items acc r h hacc
    match items with
    | [] =>
      simp only [fuseFragments, Except.ok.injEq] at h
      rw [← h]; exact hacc
    | x :: xs =>
      match x with
      | cacs o e =>
        simp only [fuseFragments] at h
        cases ho : asIterable o with
        | error e' => rw [ho] at h; simp [exceptBind_error] at h
        | ok ol =>
          rw [ho] at h; simp only [exceptBind_ok] at h
          cases he : asIterable e with
          | error e' => rw [he] at h; simp [exceptBind_error] at h
          | ok el =>
            rw [he] at h; simp only [exceptBind_ok] at h
            cases hfa : fuseFragments n ol [] with
            | error e' => rw [hfa] at h; simp [exceptBind_error] at h
            | ok fa =>
              rw [hfa] at h; simp only [exceptBind_ok] at h
              cases hfb : fuseFragments n el [] with
              | error e' => rw [hfb] at h; simp [exceptBind_error] at h
              | ok fb =>
                rw [hfb] at h; simp only [exceptBind_ok] at h
                have hfaP := ih ol [] fa hfa (by simp)
                have hfbP := ih el [] fb hfb (by simp)
                refine ih xs _ r h ?_
                intro y hy
                rcases List.mem_append.mp hy with hy | hy
                · exact hacc y hy
                · simp at hy
                  subst hy
                  refine ⟨Or.inr ⟨_, _, rfl⟩,
                    AttnFree.cacs (AttnFree.pylist ?_) (AttnFree.pylist ?_)⟩
                  · exact fun z hz => (hfaP z hz).2
                  · exact fun z hz => (hfbP z hz).2
      | fragment t w =>
        cases hL : acc.getLast? with
        | none =>
          have hstep : fuseFragments (n + 1) (fragment t w :: xs) acc =
              fuseFragments n xs (acc ++ [fragment t w]) := by
            simp [fuseFragments, hL, getText, getWeight, exceptBind_ok]
          rw [hstep] at h
          refine ih xs _ r h ?_
          intro y hy
          rcases List.mem_append.mp hy with hy | hy
          · exact hacc y hy
          · simp at hy; subst hy
            exact ⟨Or.inl ⟨_, _, rfl⟩, AttnFree.fragment _ _⟩
        | some l =>
          rcases (hacc l (getLast?_mem' hL)).1 with ⟨lt, lw, hl⟩ | ⟨o', e', hl⟩
          · subst hl
            by_cases hw : lw = w
            · subst hw
              have hstep : fuseFragments (n + 1) (fragment t lw :: xs) acc =
                  fuseFragments n xs (acc.dropLast ++ [fragment (lt ++ " " ++ t) lw]) := by
                simp [fuseFragments, hL, getText, getWeight, isCACF, exceptBind_ok]
              rw [hstep] at h
              refine ih xs _ r h ?_
              intro y hy
              rcases List.mem_append.mp hy with hy | hy
              · exact hacc y (List.dropLast_subset _ hy)
              · simp at hy; subst hy
                exact ⟨Or.inl ⟨_, _, rfl⟩, AttnFree.fragment _ _⟩
            · have hstep : fuseFragments (n + 1) (fragment t w :: xs) acc =
                  fuseFragments n xs (acc ++ [fragment t w]) := by
                simp [fuseFragments, hL, getText, getWeight, isCACF, exceptBind_ok, hw]
              rw [hstep] at h
              refine ih xs _ r h ?_
              intro y hy
              rcases List.mem_append.mp hy with hy | hy
              · exact hacc y hy
              · simp at hy; subst hy
                exact ⟨Or.inl ⟨_, _, rfl⟩, AttnFree.fragment _ _⟩
          · subst hl
            have hstep : fuseFragments (n + 1) (fragment t w :: xs) acc =
                fuseFragments n xs (acc ++ [fragment t w]) := by
              simp [fuseFragments, hL, getText, getWeight, isCACF, exceptBind_ok]
            rw [hstep] at h
            refine ih xs _ r h ?_
            intro y hy
            rcases List.mem_append.mp hy with hy | hy
            · exact hacc y hy
            · simp at hy; subst hy
              exact ⟨Or.inl ⟨_, _, rfl⟩, AttnFree.fragment _ _⟩
      | attention w cs =>
        exact absurd h (fuse_cons_fails n _ xs acc r (fun o e he => Node.noConfusion he) rfl)
      | cacAppend f =>
        exact absurd h (fuse_cons_fails n _ xs acc r (fun o e he => Node.noConfusion he) rfl)
      | prompt cs =>
        exact absurd h (fuse_cons_fails n _ xs acc r (fun o e he => Node.noConfusion he) rfl)
      | flattened cs =>
        exact absurd h (fuse_cons_fails n _ xs acc r (fun o e he => Node.noConfusion he) rfl)
      | blend ps ws nw =>
        exact absurd h (fuse_cons_fails n _ xs acc r (fun o e he => Node.noConfusion he) rfl)
      | conjunction ps ws =>
        exact absurd h (fuse_cons_fails n _ xs acc r (fun o e he => Node.noConfusion he) rfl)
      | parseResults ls =>
        exact absurd h (fuse_cons_fails n _ xs acc r (fun o e he => Node.noConfusion he) rfl)
      | pylist ls =>
        exact absurd h (fuse_cons_fails n _ xs acc r (fun o e he => Node.noConfusion he) rfl)
      | pystr s =>
        exact absurd h (fuse_cons_fails n _ xs acc r (fun o e he => Node.noConfusion he) rfl)
      | pynum q =>
        exact absurd h (fuse_cons_fails n _ xs acc r (fun o e he => Node.noConfusion he) rfl)

/-- Shape and attention-freeness of everything `flatten_internal` emits. -/
theorem flattenInternal_out :
    ∀ (n : Nat) (t : Node) (sc : ℚ) (acc r : List Node),
      flattenInternal n t sc acc = .ok r →
      ∃ out, r = acc ++ out ∧ ∀ x ∈ out, topOut x ∧ AttnFree x := by
  intro n
  induction n with
  | zero => intro t sc acc r h; simp [flattenInternal] at h
  | succ n ih =>
    have aux : ∀ (l : List Node) (sc' : ℚ) (acc r : List Node),
        l.foldlM (fun a c => flattenInternal n c sc' a) acc = .ok r →
        ∃ out, r = acc ++ out ∧ ∀ x ∈ out, topOut x ∧ AttnFree x := by
      intro l sc'
      induction l with
      | nil =>
        intro acc r h
        simp only [List.foldlM, pure, Except.pure, Except.ok.injEq] at h
        exact ⟨[], by simp [← h], by simp⟩
      | cons c l ihl =>
        intro acc r h
        simp only [List.foldlM_cons] at h
        cases hmid : flattenInternal n c sc' acc with
        | error e => rw [hmid] at h; simp [exceptBind_error] at h
        | ok mid =>
          rw [hmid] at h
          simp only [exceptBind_ok] at h
          obtain ⟨out1, hmid1, hout1⟩ := ih c sc' acc mid hmid
          obtain ⟨out2, hr, hout2⟩ := ihl mid r h
          subst hmid1 hr
          exact ⟨out1 ++ out2, by simp, by
            intro x hx
            rcases List.mem_append.mp hx with hx | hx
            · exact hout1 x hx
            · exact hout2 x hx⟩
    intro t sc acc r h
    match t with
    | parseResults l =>
      simp only [flattenInternal] at h
      exact aux l sc acc r h
    | attention w cs =>
      simp only [flattenInternal] at h
      exact aux cs (qmul sc w) acc r h
    | fragment tx w =>
      simp only [flattenInternal, Except.ok.injEq] at h
      exact ⟨[fragment tx (qmul w sc)], h.symm, by
        intro x hx
        simp at hx
        subst hx
        exact ⟨Or.inl ⟨_, _, rfl⟩, AttnFree.fragment _ _⟩⟩
    | cacs o e =>
      simp only [flattenInternal] at h
      cases ho : flattenInternal n o sc [] with
      | error e' => rw [ho] at h; simp [exceptBind_error] at h
      | ok ro =>
        rw [ho] at h
        simp only [exceptBind_ok] at h
        cases he : flattenInternal n e sc [] with
        | error e' => rw [he] at h; simp [exceptBind_error] at h
        | ok re =>
          rw [he] at h
          simp only [exceptBind_ok, Except.ok.injEq] at h
          obtain ⟨oo, hoo, hooP⟩ := ih o sc [] ro ho
          obtain ⟨oe, hoe, hoeP⟩ := ih e sc [] re he
          simp at hoo hoe
          subst hoo hoe
          refine ⟨[cacs (pylist ro) (pylist re)], h.symm, ?_⟩
          intro x hx
          simp at hx
          subst hx
          refine ⟨Or.inr (Or.inl ⟨_, _, rfl⟩),
            AttnFree.cacs (AttnFree.pylist ?_) (AttnFree.pylist ?_)⟩
          · exact fun z hz => (hooP z hz).2
          · exact fun z hz => (hoeP z hz).2
    | blend ps ws nw =>
      simp only [flattenInternal] at h
      cases hsubs : ps.foldlM (fun a c => flattenInternal n c sc a) [] with
      | error e' => rw [hsubs] at h; simp [exceptBind_error] at h
      | ok subs =>
        rw [hsubs] at h
        simp only [exceptBind_ok] at h
        cases hb : mkBlend subs ws true with
        | error e' => rw [hb] at h; simp [exceptBind_error] at h
        | ok b =>
          rw [hb] at h
          simp only [exceptBind_ok, Except.ok.injEq] at h
          obtain ⟨hbeq, hbkinds⟩ := mkBlend_ok hb
          obtain ⟨outs, houts, houtsP⟩ := aux ps sc [] subs hsubs
          simp at houts
          subst houts
          refine ⟨[b], h.symm, ?_⟩
          intro x hx
          simp at hx
          subst hx
          subst hbeq
          refine ⟨Or.inr (Or.inr (Or.inl ⟨_, _, _, rfl, hbkinds⟩)),
            AttnFree.blend fun p hp => (houtsP p hp).2⟩
    | prompt cs =>
      simp only [flattenInternal] at h
      cases hflat : cs.foldlM (fun a c => flattenInternal n c sc a) [] with
      | error e' => rw [hflat] at h; simp [exceptBind_error] at h
      | ok flat =>
        rw [hflat] at h
        simp only [exceptBind_ok] at h
        cases hfuse : fuseFragments n flat [] with
        | error e' => rw [hfuse] at h; simp [exceptBind_error] at h
        | ok fused =>
          rw [hfuse] at h
          simp only [exceptBind_ok] at h
          cases hfp : mkFlattenedPrompt (fused.map FPart.node) with
          | error e' => rw [hfp] at h; simp [exceptBind_error] at h
          | ok fp =>
            rw [hfp] at h
            simp only [exceptBind_ok, Except.ok.injEq] at h
            have hfused := fuse_out n flat [] fused hfuse (by simp)
            have hfpeq := mkFlattenedPrompt_map_node hfp
            refine ⟨[fp], h.symm, ?_⟩
            intro x hx
            simp at hx
            subst hx
            subst hfpeq
            refine ⟨Or.inr (Or.inr (Or.inr ⟨fused, rfl, fun c hc => (hfused c hc).1⟩)),
              AttnFree.flattened fun c hc => (hfused c hc).2⟩
    | flattened cs => simp [flattenInternal] at h
    | cacAppend f => simp [flattenInternal] at h
    | conjunction ps ws => simp [flattenInternal] at h
    | pylist l => simp [flattenInternal] at h
    | pystr s => simp [flattenInternal] at h
    | pynum q => simp [flattenInternal] at h

theorem coercePromptEntry_topOut {x y : Node} (hx : topOut x)
    (h : coercePromptEntry x = .ok y) :
    y = x ∧ ((∃ bs bw nw, x = blend bs bw nw) ∨
             (∃ cs, x = flattened cs ∧ ∀ c ∈ cs, resultChildOk c)) := by
  rcases hx with ⟨t, w, hx⟩ | ⟨o, e, hx⟩ | ⟨ps, ws, nw, hx, _⟩ | ⟨cs, hx, hcs⟩ <;> subst hx
  · simp [coercePromptEntry] at h
  · simp [coercePromptEntry] at h
  · simp only [coercePromptEntry, Except.ok.injEq] at h
    exact ⟨h.symm, Or.inl ⟨_, _, _, rfl⟩⟩
  · simp only [coercePromptEntry, Except.ok.injEq] at h
    exact ⟨h.symm, Or.inr ⟨_, rfl, hcs⟩⟩

theorem coerceAll_topOut : ∀ (ps res : List Node), (∀ p ∈ ps, topOut p) →
    coerceAll ps = .ok res →
    res = ps ∧ ∀ p ∈ ps, ((∃ bs bw nw, p = blend bs bw nw) ∨
      (∃ cs, p = flattened cs ∧ ∀ c ∈ cs, resultChildOk c)) := by
  intro ps
  induction ps with
  | nil =>
    intro res _ h
    simp only [coerceAll, Except.ok.injEq] at h
    exact ⟨h.symm, by simp⟩
  | cons p ps ih =>
    intro res hps h
    simp only [coerceAll] at h
    cases hc : coercePromptEntry p with
    | error e => rw [hc] at h; simp [exceptBind_error] at h
    | ok y =>
      rw [hc] at h
      simp only [exceptBind_ok] at h
      cases hrest : coerceAll ps with
      | error e => rw [hrest] at h; simp [exceptBind_error] at h
      | ok ys =>
        rw [hrest] at h
        simp only [exceptBind_ok, Except.ok.injEq] at h
        obtain ⟨hy, hpgood⟩ := coercePromptEntry_topOut (hps p (by simp)) hc
        obtain ⟨hys, hgood⟩ := ih ys (fun q hq => hps q (by simp [hq])) hrest
        subst hy hys
        refine ⟨h.symm, ?_⟩
        intro q hq
        rcases List.mem_cons.mp hq with hq | hq
        · subst hq; exact hpgood
        · exact hgood q hq

/-- Whatever raw tree reaches it, a successful `flatten` returns a
`Conjunction` of the claimed shape, free of `Attention` nodes. -/
theorem flatten_ok (fuel : Nat) (root res : Node) (h : flatten fuel root = .ok res) :
    resultShape res ∧ AttnFree res := by
  match root with
  | conjunction ps ws =>
    simp only [flatten] at h
    have aux : ∀ (l : List Node) (acc parts : List Node),
        l.foldlM (fun acc p => do pure (acc ++ (← flattenInternal fuel p (mkRat 1 1) []))) acc
          = .ok parts →
        (∀ x ∈ acc, topOut x ∧ AttnFree x) → ∀ x ∈ parts, topOut x ∧ AttnFree x := by
      intro l
      induction l with
      | nil =>
        intro acc parts h0 hacc
        simp only [List.foldlM, pure, Except.pure, Except.ok.injEq] at h0
        rw [← h0]; exact hacc
      | cons p l ihl =>
        intro acc parts h0 hacc
        simp only [List.foldlM_cons] at h0
        cases hp : flattenInternal fuel p (mkRat 1 1) [] with
        | error e =>
          rw [hp] at h0
          simp [exceptBind_error, pure, Except.pure] at h0
        | ok outp =>
          rw [hp] at h0
          simp only [exceptBind_ok, pure, Except.pure] at h0
          obtain ⟨out, hout, houtP⟩ := flattenInternal_out fuel p (mkRat 1 1) [] outp hp
          simp at hout
          subst hout
          refine ihl _ parts h0 ?_
          intro x hx
          rcases List.mem_append.mp hx with hx | hx
          · exact hacc x hx
          · exact houtP x hx
    cases hparts : (ps.foldlM
        (fun acc p => do pure (acc ++ (← flattenInternal fuel p (mkRat 1 1) [])))
        ([] : List Node)) with
    | error e => rw [hparts] at h; simp [exceptBind_error] at h
    | ok parts =>
      rw [hparts] at h
      simp only [exceptBind_ok] at h
      have hP := aux ps [] parts hparts (by simp)
      unfold mkConjunction at h
      cases hco : coerceAll parts with
      | error e => rw [hco] at h; simp [exceptBind_error] at h
      | ok parts' =>
        rw [hco] at h
        simp only [exceptBind_ok] at h
        obtain ⟨hpp, hgood⟩ := coerceAll_topOut parts parts' (fun p hp => (hP p hp).1) hco
        rw [hpp] at h
        split at h
        · exact absurd h (by simp)
        · simp only [Except.ok.injEq] at h
          subst h
          refine ⟨⟨parts, ws, rfl, ?_⟩, AttnFree.conjunction fun p hp => (hP p hp).2⟩
          intro p hp
          rcases hgood p hp with hb | hf
          · exact Or.inr hb
          · exact Or.inl hf
  | prompt cs => simp [flatten] at h
  | blend a b c => simp [flatten] at h
  | flattened cs => simp [flatten] at h
  | fragment t w => simp [flatten] at h
  | attention w cs => simp [flatten] at h
  | cacs o e => simp [flatten] at h
  | cacAppend f => simp [flatten] at h
  | parseResults l => simp [flatten] at h
  | pylist l => simp [flatten] at h
  | pystr s => simp [flatten] at h
  | pynum q => simp [flatten] at h

/-- The substitute branch of `flatten_internal` (supports claim C6). -/
theorem flattenInternal_cacs_eq (n : Nat) (o e : Node) (sc : ℚ) (acc ro re : List Node)
    (ho : flattenInternal n o sc [] = .ok ro) (he : flattenInternal n e sc [] = .ok re) :
    flattenInternal (n + 1) (cacs o e) sc acc = .ok (acc ++ [cacs (pylist ro) (pylist re)]) := by
  simp only [flattenInternal, ho, he, exceptBind_ok]

theorem C5_plus_run (k : Nat) (hk : 0 < k) (wc : Char) (w rest : List Char)
    (hwc : fiaChar wc = true) (hwcp : wc ≠ '+')
    (hw : ∀ c ∈ w, fiaChar c = true)
    (hrest : rest = [] ∨ ∃ c cs, rest = c :: cs ∧ fiaChar c = false) :
    attentionWithoutParens (List.replicate k '+' ++ (wc :: w) ++ rest) =
      .ok (some (rest, [.node (attention (qpow (mkRat 11 10) k)
        [fragment (wc :: w).asString (mkRat 1 1)])])) := by
  obtain ⟨k', rfl⟩ : ∃ k', k = k' + 1 := ⟨k - 1, by omega⟩
  have hskip : skipWS (List.replicate (k' + 1) '+' ++ ((wc :: w) ++ rest)) =
      List.replicate (k' + 1) '+' ++ ((wc :: w) ++ rest) := by
    rw [List.replicate_succ]
    exact skipWS_not_ws (by decide) _
  have hplus : spanP (fun c => c = '+') (List.replicate (k' + 1) '+' ++ ((wc :: w) ++ rest)) =
      (List.replicate (k' + 1) '+', (wc :: w) ++ rest) := by
    apply spanP_all_stop
    · intro c hc
      simp at hc
      simp [hc]
    · right
      exact ⟨wc, w ++ rest, by simp, by simp [hwcp]⟩
  have hfia : spanP fiaChar ((wc :: w) ++ rest) = (wc :: w, rest) := by
    apply spanP_all_stop
    · intro c hc
      rcases List.mem_cons.mp hc with hc | hc
      · subst hc; exact hwc
      · exact hw c hc
    · rcases hrest with h | ⟨c, cs, hr, hc⟩
      · exact Or.inl h
      · exact Or.inr ⟨c, cs, hr, hc⟩
  simp only [List.cons_append] at hfia
  rw [List.append_assoc]
  simp only [attentionWithoutParens, hskip, hplus]
  simp [hfia, makeAttention, List.asString, List.replicate_succ, String.length]

theorem C5_minus_run (k : Nat) (hk : 0 < k) (wc : Char) (w rest : List Char)
    (hwc : fiaChar wc = true) (hwcm : wc ≠ '-')
    (hw : ∀ c ∈ w, fiaChar c = true)
    (hrest : rest = [] ∨ ∃ c cs, rest = c :: cs ∧ fiaChar c = false) :
    attentionWithoutParens (List.replicate k '-' ++ (wc :: w) ++ rest) =
      .ok (some (rest, [.node (attention (qpow (mkRat 9 10) k)
        [fragment (wc :: w).asString (mkRat 1 1)])])) := by
  obtain ⟨k', rfl⟩ : ∃ k', k = k' + 1 := ⟨k - 1, by omega⟩
  have hskip : skipWS (List.replicate (k' + 1) '-' ++ ((wc :: w) ++ rest)) =
      List.replicate (k' + 1) '-' ++ ((wc :: w) ++ rest) := by
    rw [List.replicate_succ]
    exact skipWS_not_ws (by decide) _
  have hplus : spanP (fun c => c = '+') (List.replicate (k' + 1) '-' ++ ((wc :: w) ++ rest)) =
      ([], List.replicate (k' + 1) '-' ++ ((wc :: w) ++ rest)) := by
    have := spanP_all_stop (fun c => c = '+') []
      (List.replicate (k' + 1) '-' ++ ((wc :: w) ++ rest)) (by simp)
      (Or.inr ⟨'-', List.replicate k' '-' ++ ((wc :: w) ++ rest), by
        rw [List.replicate_succ]; simp, by decide⟩)
    simpa using this
  have hminus : spanP (fun c => c = '-') (List.replicate (k' + 1) '-' ++ ((wc :: w) ++ rest)) =
      (List.replicate (k' + 1) '-', (wc :: w) ++ rest) := by
    apply spanP_all_stop
    · intro c hc
      simp at hc
      simp [hc]
    · right
      exact ⟨wc, w ++ rest, by simp, by simp [hwcm]⟩
  have hfia : spanP fiaChar ((wc :: w) ++ rest) = (wc :: w, rest) := by
    apply spanP_all_stop
    · intro c hc
      rcases List.mem_cons.mp hc with hc | hc
      · subst hc; exact hwc
      · exact hw c hc
    · rcases hrest with h | ⟨c, cs, hr, hc⟩
      · exact Or.inl h
      · exact Or.inr ⟨c, cs, hr, hc⟩
  simp only [List.cons_append] at hfia
  rw [List.append_assoc]
  simp only [attentionWithoutParens, hskip, hplus, hminus]
  simp [hfia, makeAttention, List.asString, List.replicate_succ, String.length]

/-! ## Claim theorems -/

/-- C1, counterexample: the claim says `parse` never lets a raw parser
error escape for any input string, but the input consisting of a single
(unbalanced) double quote makes every production fail, so the raw
`pyparsing.ParseException` of `parse_string` escapes to the caller. -/
theorem C1_counterexample : parse "\"" = .error .parseException := rfl

/-- C1, amended: unbalanced parentheses and stray `.swap`/`.blend`/`.and`
keywords are indeed consumed as literal fragments at default weight, and
`parse` succeeds on them; but the fallback does not cover every string —
an input with an unbalanced double quote (or a character the grammar
cannot consume, such as a vertical tab) escapes as a raw parser error
rather than a `ParsingException`. -/
theorem C1_theorem :
    parse "fire )(" =
      .ok (conjunction [flattened [fragment "fire )(" (mkRat 1 1)]] [mkRat 1 1])
    ∧ parse "(((a badly (formed test+ )prompt" =
      .ok (conjunction [flattened
        [fragment "(((a badly (formed test+ )prompt" (mkRat 1 1)]] [mkRat 1 1])
    ∧ parse ".swap" =
      .ok (conjunction [flattened [fragment ".swap" (mkRat 1 1)]] [mkRat 1 1])
    ∧ parse "fire .blend(" =
      .ok (conjunction [flattened [fragment "fire .blend(" (mkRat 1 1)]] [mkRat 1 1])
    ∧ parse "fire .and(" =
      .ok (conjunction [flattened [fragment "fire .and(" (mkRat 1 1)]] [mkRat 1 1])
    ∧ parse "\"" = .error .parseException
    ∧ parse "a\x0b" = .error .parseException :=
  ⟨rfl, rfl, rfl, rfl, rfl, rfl, rfl⟩

/-- C2: attention weights compose multiplicatively with ancestor scope —
on every attention/fragment tree a successful `flatten_internal` emits
each leaf at its own weight times the product of all enclosing
`Attention` weights (`leavesF`), and the nested concrete example parses
to `fire@1, flames@2, trees@3`. -/
theorem C2_theorem :
    (∀ (n : Nat) (t : Node) (sc : ℚ) (acc r : List Node),
      AFTree t → flattenInternal n t sc acc = .ok r → r = acc ++ leavesF n t sc)
    ∧ parse "fire 2.0(flames 1.5(trees))" =
        .ok (conjunction [flattened [fragment "fire" (mkRat 1 1),
          fragment "flames" (mkRat 2 1), fragment "trees" (mkRat 3 1)]] [mkRat 1 1]) :=
  ⟨flattenInternal_afTree, rfl⟩

/-- C2, witness: the nested attention tree `2.0(flames 1.5(trees))`. -/
theorem C2_witness :
    AFTree (attention (mkRat 2 1) [fragment "flames" (mkRat 1 1),
      attention (mkRat 3 2) [fragment "trees" (mkRat 1 1)]])
    ∧ flattenInternal 5 (attention (mkRat 2 1) [fragment "flames" (mkRat 1 1),
        attention (mkRat 3 2) [fragment "trees" (mkRat 1 1)]]) (mkRat 1 1) [] =
      .ok [fragment "flames" (mkRat 2 1), fragment "trees" (mkRat 3 1)]
    ∧ [fragment "flames" (mkRat 2 1), fragment "trees" (mkRat 3 1)] =
      [] ++ leavesF 5 (attention (mkRat 2 1) [fragment "flames" (mkRat 1 1),
        attention (mkRat 3 2) [fragment "trees" (mkRat 1 1)]]) (mkRat 1 1) := by
  have hT : AFTree (attention (mkRat 2 1) [fragment "flames" (mkRat 1 1),
      attention (mkRat 3 2) [fragment "trees" (mkRat 1 1)]]) := by
    refine AFTree.att _ ?_
    intro c hc
    simp at hc
    rcases hc with hc | hc
    · subst hc; exact AFTree.frag _ _
    · subst hc
      refine AFTree.att _ ?_
      intro c hc
      simp at hc
      subst hc
      exact AFTree.frag _ _
  exact ⟨hT, rfl, C2_theorem.1 5 _ (mkRat 1 1) [] _ hT rfl⟩

/-- C3: inside one flattening buffer, adjacent plain fragments with equal
weights are fused into `previous ++ " " ++ current` at the same weight,
substitutes are never fused and restart the chain (`fuseSpecTop` is the
rule exactly as the claim words it), and `parse "fire flames"` returns a
single fused fragment. -/
theorem C3_theorem :
    (∀ (n : Nat) (items r : List Node), (∀ x ∈ items, BufferItem x) →
      fuseFragments n items [] = .ok r → r = fuseSpecTop items)
    ∧ parse "fire flames" =
        .ok (conjunction [flattened [fragment "fire flames" (mkRat 1 1)]] [mkRat 1 1]) := by
  refine ⟨?_, rfl⟩
  intro n items r hi h
  simpa [fuseSpecTop] using fuse_spec n items [] r hi (by simp) h

/-- C3, witness: two equal-weight fragments fuse into one. -/
theorem C3_witness :
    (∀ x ∈ [fragment "fire" (mkRat 1 1), fragment "flames" (mkRat 1 1)], BufferItem x)
    ∧ fuseFragments 3 [fragment "fire" (mkRat 1 1), fragment "flames" (mkRat 1 1)] [] =
        .ok [fragment "fire flames" (mkRat 1 1)]
    ∧ [fragment "fire flames" (mkRat 1 1)] =
        fuseSpecTop [fragment "fire" (mkRat 1 1), fragment "flames" (mkRat 1 1)] := by
  have hB : ∀ x ∈ [fragment "fire" (mkRat 1 1), fragment "flames" (mkRat 1 1)],
      BufferItem x := by
    intro x hx
    simp at hx
    rcases hx with hx | hx <;> subst hx <;> exact BufferItem.frag _ _
  exact ⟨hB, rfl, C3_theorem.1 3 _ _ hB rfl⟩

/-- C4: every value `parse` returns is a `Conjunction` whose branches are
`FlattenedPrompt`s (with only `Fragment` / substitute children) or
`Blend`s, and no `Attention` node survives anywhere in it. -/
theorem C4_theorem (s : String) (res : Node) (h : parse s = .ok res) :
    resultShape res ∧ AttnFree res := by
  unfold parse at h
  split at h
  · have hres : res = conjunction [flattened [fragment "" (mkRat 1 1)]] [mkRat 1 1] := by
      have h' : (do
          let fp ← mkFlattenedPrompt [FPart.tup "" (mkRat 1 1)]
          mkConjunction [fp] (some [mkRat 1 1])) = Except.ok res := h
      rw [show (do
          let fp ← mkFlattenedPrompt [FPart.tup "" (mkRat 1 1)]
          mkConjunction [fp] (some [mkRat 1 1]) : Except PyErr Node) =
        Except.ok (conjunction [flattened [fragment "" (mkRat 1 1)]] [mkRat 1 1]) from rfl] at h'
      simpa using h'.symm
    subst hres
    constructor
    · refine ⟨_, _, rfl, ?_⟩
      intro p hp
      simp at hp
      subst hp
      refine Or.inl ⟨_, rfl, ?_⟩
      intro c hc
      simp at hc
      subst hc
      exact Or.inl ⟨_, _, rfl⟩
    · refine AttnFree.conjunction ?_
      intro p hp
      simp at hp
      subst hp
      refine AttnFree.flattened ?_
      intro c hc
      simp at hc
      subst hc
      exact AttnFree.fragment _ _
  · cases hg : run (grammarFuel s) .conjunctionTop s.data with
    | error e => rw [hg] at h; simp at h
    | ok o =>
      rw [hg] at h
      match o with
      | none => simp at h
      | some (rest, toks) =>
        match toks with
        | [] => simp at h
        | .node c :: _ => exact flatten_ok _ c res h
        | .str a :: _ => simp at h
        | .num a :: _ => simp at h
        | .group a :: _ => simp at h

/-- C4, witness: the result of `parse "fire"`. -/
theorem C4_witness :
    parse "fire" = .ok (conjunction [flattened [fragment "fire" (mkRat 1 1)]] [mkRat 1 1])
    ∧ (resultShape (conjunction [flattened [fragment "fire" (mkRat 1 1)]] [mkRat 1 1])
       ∧ AttnFree (conjunction [flattened [fragment "fire" (mkRat 1 1)]] [mkRat 1 1])) :=
  ⟨rfl, C4_theorem "fire" _ rfl⟩

/-- C5: a leading run of `k` plus signs weights the immediately following
word at `(11/10)^k`, a run of minus signs at `(9/10)^k` (the default
bases), the weight attaches only to that one word, and
`parse "++fire flames"` yields `fire@1.1²`, `flames@1`. -/
theorem C5_theorem :
    (∀ (k : Nat), 0 < k → ∀ (wc : Char) (w rest : List Char),
      fiaChar wc = true → wc ≠ '+' → (∀ c ∈ w, fiaChar c = true) →
      (rest = [] ∨ ∃ c cs, rest = c :: cs ∧ fiaChar c = false) →
      attentionWithoutParens (List.replicate k '+' ++ (wc :: w) ++ rest) =
        .ok (some (rest, [.node (attention (qpow (mkRat 11 10) k)
          [fragment (wc :: w).asString (mkRat 1 1)])])))
    ∧ (∀ (k : Nat), 0 < k → ∀ (wc : Char) (w rest : List Char),
      fiaChar wc = true → wc ≠ '-' → (∀ c ∈ w, fiaChar c = true) →
      (rest = [] ∨ ∃ c cs, rest = c :: cs ∧ fiaChar c = false) →
      attentionWithoutParens (List.replicate k '-' ++ (wc :: w) ++ rest) =
        .ok (some (rest, [.node (attention (qpow (mkRat 9 10) k)
          [fragment (wc :: w).asString (mkRat 1 1)])])))
    ∧ parse "++fire flames" =
        .ok (conjunction [flattened [fragment "fire" (mkRat 121 100),
          fragment "flames" (mkRat 1 1)]] [mkRat 1 1]) :=
  ⟨fun k hk => C5_plus_run k hk, fun k hk => C5_minus_run k hk, rfl⟩

/-- C5, witness: `++fire` at the end of input. -/
theorem C5_witness :
    (0 < 2 ∧ fiaChar 'f' = true ∧ 'f' ≠ '+' ∧ ∀ c ∈ ['i', 'r', 'e'], fiaChar c = true)
    ∧ attentionWithoutParens (List.replicate 2 '+' ++ ('f' :: ['i', 'r', 'e']) ++ []) =
        .ok (some ([], [.node (attention (qpow (mkRat 11 10) 2)
          [fragment ('f' :: ['i', 'r', 'e']).asString (mkRat 1 1)])])) := by
  refine ⟨⟨by decide, by decide, by decide, by decide⟩, ?_⟩
  exact C5_theorem.1 2 (by decide) 'f' ['i', 'r', 'e'] [] (by decide) (by decide)
    (by decide) (Or.inl rfl)

/-- C6: the substitute branch of flattening wraps the two independently
flattened sides in one `CrossAttentionControlSubstitute`, and
`parse "fire \"flames\".swap(trees)"` returns exactly the claimed tree. -/
theorem C6_theorem :
    (∀ (n : Nat) (o e : Node) (sc : ℚ) (acc ro re : List Node),
      flattenInternal n o sc [] = .ok ro → flattenInternal n e sc [] = .ok re →
      flattenInternal (n + 1) (cacs o e) sc acc =
        .ok (acc ++ [cacs (pylist ro) (pylist re)]))
    ∧ parse "fire \"flames\".swap(trees)" =
        .ok (conjunction [flattened [fragment "fire" (mkRat 1 1),
          cacs (pylist [fragment "flames" (mkRat 1 1)])
            (pylist [fragment "trees" (mkRat 1 1)])]] [mkRat 1 1]) :=
  ⟨flattenInternal_cacs_eq, rfl⟩

/-- C6, witness: flattening a concrete substitute node. -/
theorem C6_witness :
    flattenInternal 3 (fragment "flames" (mkRat 1 1)) (mkRat 1 1) [] =
      .ok [fragment "flames" (mkRat 1 1)]
    ∧ flattenInternal 3 (fragment "trees" (mkRat 1 1)) (mkRat 1 1) [] =
      .ok [fragment "trees" (mkRat 1 1)]
    ∧ flattenInternal 4 (cacs (fragment "flames" (mkRat 1 1)) (fragment "trees" (mkRat 1 1)))
        (mkRat 1 1) [] = .ok [cacs (pylist [fragment "flames" (mkRat 1 1)])
          (pylist [fragment "trees" (mkRat 1 1)])] := by
  refine ⟨rfl, rfl, ?_⟩
  have := C6_theorem.1 3 (fragment "flames" (mkRat 1 1)) (fragment "trees" (mkRat 1 1))
    (mkRat 1 1) [] _ _ rfl rfl
  simpa using this

/-- C7: `Blend` raises `ParsingException` on a prompts/weights count
mismatch and on any non-`Prompt`/`FlattenedPrompt` element; `Conjunction`
raises on an explicit weight-count mismatch, and defaults omitted weights
to `1.0` per prompt without error. -/
theorem C7_theorem :
    (∀ (ps : List Node) (ws : List ℚ) (nw : Bool),
      ps.length ≠ ws.length → mkBlend ps ws nw = .error .parsingException)
    ∧ (∀ (ps : List Node) (ws : List ℚ) (nw : Bool) (p : Node), p ∈ ps →
      isPromptNode p = false → isFlattenedNode p = false →
      mkBlend ps ws nw = .error .parsingException)
    ∧ (∀ (ps : List Node) (ws : List ℚ), (∀ p ∈ ps, isPBF p = true) →
      ps.length ≠ ws.length → mkConjunction ps (some ws) = .error .parsingException)
    ∧ (∀ ps : List Node, (∀ p ∈ ps, isPBF p = true) →
      mkConjunction ps none = .ok (conjunction ps (List.replicate ps.length (mkRat 1 1)))) := by
  refine ⟨?_, ?_, ?_, ?_⟩
  · intro ps ws nw h
    simp [mkBlend, h]
  · intro ps ws nw p hp h1 h2
    unfold mkBlend
    by_cases hl : ps.length = ws.length
    · have hall : (ps.all fun c => isPromptNode c || isFlattenedNode c) = false := by
        simp only [List.all_eq_false]
        exact ⟨p, hp, by simp [h1, h2]⟩
      simp [hl, hall]
    · simp [hl]
  · intro ps ws hps hlen
    have hm := coerceAll_isPBF ps hps
    simp [mkConjunction, hm, exceptBind_ok]
    omega
  · intro ps hps
    have hm := coerceAll_isPBF ps hps
    simp [mkConjunction, hm, exceptBind_ok]

/-- C7, witness: a one-prompt `Blend` with no weights raises; a
one-prompt `Conjunction` without weights defaults to `[1.0]`. -/
theorem C7_witness :
    ([prompt [fragment "a" (mkRat 1 1)]] : List Node).length ≠ ([] : List ℚ).length
    ∧ mkBlend [prompt [fragment "a" (mkRat 1 1)]] [] true = .error .parsingException
    ∧ (∀ p ∈ ([prompt [fragment "a" (mkRat 1 1)]] : List Node), isPBF p = true)
    ∧ mkConjunction [prompt [fragment "a" (mkRat 1 1)]] none =
        .ok (conjunction [prompt [fragment "a" (mkRat 1 1)]]
          (List.replicate 1 (mkRat 1 1))) := by
  have hp : ∀ p ∈ ([prompt [fragment "a" (mkRat 1 1)]] : List Node), isPBF p = true := by
    intro p hp
    simp at hp
    subst hp
    rfl
  exact ⟨by decide, C7_theorem.1 _ _ true (by decide), hp,
    C7_theorem.2.2.2 [prompt [fragment "a" (mkRat 1 1)]] hp⟩

/-- C8: for every whitespace-only input (including the empty string),
`parse` short-circuits to the canonical empty `Conjunction` without
running the grammar. -/
theorem C8_theorem (s : String) (h : ∀ c ∈ s.data, isPyWS c = true) :
    parse s = .ok (conjunction [flattened [fragment "" (mkRat 1 1)]] [mkRat 1 1]) := by
  have h1 : s.data.dropWhile (fun c => isPyWS c) = [] := by
    rw [List.dropWhile_eq_nil_iff]
    intro x hx
    simp [h x hx]
  have h2 : pyStrip s = "" := by
    unfold pyStrip
    rw [h1]
    rfl
  unfold parse
  rw [h2]
  rfl

/-- C8, witness: the empty string and three spaces. -/
theorem C8_witness :
    (∀ c ∈ "   ".data, isPyWS c = true)
    ∧ parse "   " = .ok (conjunction [flattened [fragment "" (mkRat 1 1)]] [mkRat 1 1])
    ∧ parse "" = .ok (conjunction [flattened [fragment "" (mkRat 1 1)]] [mkRat 1 1]) :=
  ⟨by decide, C8_theorem "   " (by decide), C8_theorem "" (by decide)⟩

/-- C9, counterexample: the already-flattened tree
`Conjunction([FlattenedPrompt([Fragment("a",1.0)])])` contains no
`Attention` node, yet re-flattening it raises `ParsingException`
(`FlattenedPrompt` is an unhandled node type in `flatten_internal`)
instead of returning an equal tree. -/
theorem C9_counterexample :
    AttnFree (conjunction [flattened [fragment "a" (mkRat 1 1)]] [mkRat 1 1])
    ∧ flatten 8 (conjunction [flattened [fragment "a" (mkRat 1 1)]] [mkRat 1 1]) =
        .error .parsingException := by
  refine ⟨AttnFree.conjunction fun p hp => ?_, rfl⟩
  simp at hp
  subst hp
  exact AttnFree.flattened fun c hc => by
    simp at hc
    subst hc
    exact AttnFree.fragment _ _

/-- C9, amended: flattening is idempotent only at the `Fragment` level —
with scale `1.0` a fragment is re-emitted unchanged — but not on whole
already-flat trees: `flatten_internal` raises `ParsingException` on
`FlattenedPrompt` nodes and on the (list-valued) sides of an
already-flattened substitute, so re-flattening any `parse` result fails
rather than returning an equal tree. -/
theorem C9_theorem :
    (∀ (n : Nat) (t : String) (w : ℚ) (acc : List Node),
        flattenInternal (n + 1) (fragment t w) (mkRat 1 1) acc = .ok (acc ++ [fragment t w]))
    ∧ (∀ (n : Nat) (l : List Node) (e : Node) (sc : ℚ) (acc : List Node),
        flattenInternal (n + 2) (cacs (pylist l) e) sc acc = .error .parsingException)
    ∧ flatten 8 (conjunction [flattened [fragment "a" (mkRat 1 1)]] [mkRat 1 1]) =
        .error .parsingException := by
  refine ⟨?_, ?_, rfl⟩
  · intro n t w acc
    simp [flattenInternal, qmul_one]
  · intro n l e sc acc
    simp [flattenInternal, exceptBind_error]

/-- C10: structural equality is the claim, but `Attention.__eq__`
dereferences the never-assigned `self.fragment` attribute, so comparing
two equal-weight `Attention` nodes raises `AttributeError` (equality on
different weights short-circuits to `False` first), and `Blend.__eq__`
compares `repr` strings, ignoring the declared `normalize_weights`
field. -/
theorem C10_theorem :
    pyEq 2 (attention (mkRat 2 1) []) (attention (mkRat 2 1) []) = .error .attributeError
    ∧ pyEq 2 (attention (mkRat 2 1) []) (attention (mkRat 3 1) []) = .ok false
    ∧ pyEq 6 (blend [flattened [fragment "a" (mkRat 1 1)]] [mkRat 1 1] true)
        (blend [flattened [fragment "a" (mkRat 1 1)]] [mkRat 1 1] false) = .ok true :=
  ⟨rfl, rfl, rfl⟩
end InvokeAI
